import Mathlib

/-!
Verification development for the `url-polyfill` repository: a shallow
embedding of `src/encode.ts`, `src/host.ts`, `src/search-params.ts` and
`src/url.ts` (a WHATWG-style URL parser, serializer, URL object and
query-parameter container), together with theorems settling the frozen
claims about it.

Modelling conventions:
* JavaScript strings are modelled as `List Char`, i.e. sequences of
  Unicode scalar values (USVString semantics, as the specification fixes
  for all inputs).  A single JavaScript character is a `Char`.
* `undefined` results of out-of-range indexing are modelled with
  `Option`; the parser cursor is an `Int` because the source decrements
  it below the current position (transiently to -1).
* In-place mutation of the URL record is modelled by explicit state
  passing: the parser returns the (possibly partially) mutated record
  together with its boolean/failure result, because in the source a
  state-override parse mutates the caller record even when it later
  returns failure.
* The module-level regexes of the source are modelled as pure character
  predicates (the `lastIndex` statefulness of a reused global regex is
  not observable for any input considered here).
-/

namespace UrlPolyfill

/-! ## Character classes (the regexes of `src/url.ts` and `src/encode.ts`) -/

/-- `ALPHA = /[a-zA-Z]/` -/
def isAsciiAlpha (c : Char) : Bool :=
  (65 ≤ c.toNat && c.toNat ≤ 90) || (97 ≤ c.toNat && c.toNat ≤ 122)

/-- `DIGIT = /[0-9]/` -/
def isAsciiDigit (c : Char) : Bool :=
  48 ≤ c.toNat && c.toNat ≤ 57

/-- `HEX_DIGIT = /[0-9a-fA-F]/` -/
def isHexDigit (c : Char) : Bool :=
  isAsciiDigit c || (65 ≤ c.toNat && c.toNat ≤ 70) || (97 ≤ c.toNat && c.toNat ≤ 102)

/-- `ALPHANUMERIC = /[a-zA-Z0-9+\-.]/` (the scheme code points) -/
def isSchemeChar (c : Char) : Bool :=
  isAsciiAlpha c || isAsciiDigit c || c == '+' || c == '-' || c == '.'

/-- `TAB_OR_NEWLINE = /\t|\n|\r/` -/
def isTabOrNewline (c : Char) : Bool :=
  c == '\t' || c == '\n' || c == '\r'

/-- The class `[\x00-\x1f ]` of `LEADING_OR_TRAILING_C0_CONTROL_OR_SPACE` -/
def isC0ControlOrSpace (c : Char) : Bool :=
  c.toNat ≤ 0x20

/-- ASCII lowercasing, as applied by `toLowerCase()` to the ASCII-safe
    characters the source lowercases (scheme characters). -/
def charLower (c : Char) : Char :=
  if 65 ≤ c.toNat && c.toNat ≤ 90 then Char.ofNat (c.toNat + 32) else c

/-! ## UTF-8 percent encoding and `encodeURIComponent` -/

/-- Uppercase hexadecimal digit for a value below 16. -/
def hexDigitUpper (n : Nat) : Char :=
  if n < 10 then Char.ofNat (48 + n) else Char.ofNat (55 + n)

/-- The UTF-8 encoding of a Unicode scalar value, as a list of byte values. -/
def utf8Bytes (c : Char) : List Nat :=
  if c.toNat < 0x80 then [c.toNat]
  else if c.toNat < 0x800 then [0xC0 + c.toNat / 64, 0x80 + c.toNat % 64]
  else if c.toNat < 0x10000 then
    [0xE0 + c.toNat / 4096, 0x80 + (c.toNat / 64) % 64, 0x80 + c.toNat % 64]
  else
    [0xF0 + c.toNat / 262144, 0x80 + (c.toNat / 4096) % 64,
     0x80 + (c.toNat / 64) % 64, 0x80 + c.toNat % 64]

/-- `%HH` for one byte, uppercase hex. -/
def percentByte (b : Nat) : List Char :=
  ['%', hexDigitUpper (b / 16 % 16), hexDigitUpper (b % 16)]

/-- UTF-8 percent-encode a code point: one `%HH` per UTF-8 byte. -/
def utf8PercentEncode (c : Char) : List Char :=
  (utf8Bytes c).flatMap percentByte

/-- The unreserved set of ECMA-262 `encodeURIComponent`:
    `A-Z a-z 0-9 - _ . ! ~ * ' ( )`. -/
def isUriUnreserved (c : Char) : Bool :=
  isAsciiAlpha c || isAsciiDigit c ||
    [45, 95, 46, 33, 126, 42, 39, 40, 41].contains c.toNat

/-- The ECMA-262 builtin `encodeURIComponent`, on a single code point:
    unreserved code points pass through, everything else is UTF-8
    percent-encoded with uppercase hex digits. -/
def encodeURIComponent (c : Char) : List Char :=
  if isUriUnreserved c then [c] else utf8PercentEncode c

/-- `percentEscape` from `src/encode.ts`: pass through code points with
    scalar value strictly between 0x20 and 0x7F that are not one of
    `" # < > ? \x60`; otherwise `encodeURIComponent`. -/
def percentEscape (c : Char) : List Char :=
  if 0x20 < c.toNat && c.toNat < 0x7F &&
      !([0x22, 0x23, 0x3C, 0x3E, 0x3F, 0x60].contains c.toNat) then
    [c]
  else
    encodeURIComponent c

/-- `percentEscapeQuery` from `src/encode.ts`: like `percentEscape` but
    the forbidden list omits `?` (0x3F). -/
def percentEscapeQuery (c : Char) : List Char :=
  if 0x20 < c.toNat && c.toNat < 0x7F &&
      !([0x22, 0x23, 0x3C, 0x3E, 0x60].contains c.toNat) then
    [c]
  else
    encodeURIComponent c

/-! ## urlencoded codec (`parseUrlEncoded` / `serializeUrlEncoded` in `src/encode.ts`) -/

/-- Replace `+` with space (step 4 of urlencoded parsing). -/
def plusToSpace (s : List Char) : List Char :=
  s.map fun c => if c == '+' then ' ' else c

/-- One `name=value` segment: split at the first `=` if any. -/
def splitNameValue (sequence : List Char) : List Char × List Char :=
  match sequence.findIdx? (· == '=') with
  | some i => (sequence.take i, sequence.drop (i + 1))
  | none   => (sequence, [])

/-- `parseUrlEncoded` from `src/encode.ts`: split on `&`, drop empty
    segments, split each segment at its first `=`, replace `+` by space
    in names and values.  (Percent-decoding is a TODO in the source.) -/
def parseUrlEncoded (input : List Char) : List (List Char × List Char) :=
  (input.splitOn '&').filterMap fun sequence =>
    if sequence = [] then none
    else
      let nv := splitNameValue sequence
      some (plusToSpace nv.1, plusToSpace nv.2)

/-- `SAFE_URL_ENCODE = /[a-zA-Z0-9*\-._]/` -/
def isSafeUrlEncode (c : Char) : Bool :=
  isAsciiAlpha c || isAsciiDigit c || c == '*' || c == '-' || c == '.' || c == '_'

/-- `serializeUrlEncodedBytes` from `src/encode.ts`. -/
def serializeUrlEncodedBytes (input : List Char) : List Char :=
  input.flatMap fun byte =>
    if byte == ' ' then ['+']
    else if isSafeUrlEncode byte then [byte]
    else percentEscape byte

/-- `serializeUrlEncoded` from `src/encode.ts`: `name=value` pairs joined
    by `&`. -/
def serializeUrlEncoded (tuples : List (List Char × List Char)) : List Char :=
  match tuples with
  | [] => []
  | t :: rest =>
    (serializeUrlEncodedBytes t.1 ++ '=' :: serializeUrlEncodedBytes t.2) ++
      rest.flatMap fun t =>
        '&' :: (serializeUrlEncodedBytes t.1 ++ '=' :: serializeUrlEncodedBytes t.2)

/-! ## Host module (`src/host.ts`) -/

/-- The `Host` union of `src/host.ts`: a tagged host value
    (`DOMAIN_OR_IPV4`, `IPV6`, `OPAQUE` with a payload string) or the
    empty string host. -/
inductive Host where
  | domainOrIpv4 (domain : List Char)
  | ipv6 (address : List Char)
  | opaqueHost (data : List Char)
  | emptyHost
deriving DecidableEq, Repr

/-- `parseOpaqueHost` from `src/host.ts`: percent-escape every code point.
    (Forbidden-host validation is a TODO in the source.) -/
def parseOpaqueHost (input : List Char) : Option Host :=
  some (Host.opaqueHost (input.flatMap percentEscape))

/-- `parseIPv6` from `src/host.ts`: the source does not validate and
    returns the input as the address payload. -/
def parseIPv6 (input : List Char) : Option Host :=
  some (Host.ipv6 input)

/-- `parseHost` from `src/host.ts`. -/
def parseHost (input : List Char) (isSpecial : Bool) : Option Host :=
  if input.head? = some '[' then
    if input.getLast? ≠ some ']' then none
    else parseIPv6 ((input.drop 1).dropLast)
  else if !isSpecial then parseOpaqueHost input
  else some (Host.domainOrIpv4 input)

/-- `serializeHost` from `src/host.ts`.  The body of the source is
    `return host` under a TODO comment: the host value is returned
    unchanged (for a tagged host this is the object itself, not a
    string). -/
def serializeHost (host : Host) : Host := host

/-- The string JavaScript produces when the value returned by
    `serializeHost` is used in string concatenation (as `serializeUrl`
    and the `host` getter do): the empty-string host contributes `""`, a
    tagged host is a plain object and stringifies to
    `[object Object]`. -/
def hostToJsString (host : Host) : List Char :=
  match host with
  | Host.emptyHost => []
  | _ => "[object Object]".data

/-- The host serializer as the specification describes it (spec section
    4.B): the stored payload for `domain-or-ipv4` and `opaque`, the
    payload bracketed for `ipv6`, the empty string for the empty host.
    Stated only to compare with the source behaviour. -/
def specSerializeHost (host : Host) : List Char :=
  match host with
  | Host.domainOrIpv4 s => s
  | Host.ipv6 s => '[' :: s ++ [']']
  | Host.opaqueHost s => s
  | Host.emptyHost => []

/-! ## URL record and helpers (`src/url.ts`) -/

/-- The `UrlRecord` class of `src/url.ts` (fields `_scheme` and so on).
    `host = none` models the null host, `some Host.emptyHost` the empty
    string host. -/
structure UrlRecord where
  scheme : List Char := []
  username : List Char := []
  password : List Char := []
  host : Option Host := none
  port : Option Nat := none
  path : List (List Char) := []
  query : Option (List Char) := none
  fragment : Option (List Char) := none
  cannotBeABaseURL : Bool := false
deriving DecidableEq, Repr, Inhabited

/-- The `defaultPorts` table of `src/url.ts`. -/
def defaultPort (scheme : List Char) : Option Nat :=
  if scheme = "ftp".data then some 21
  else if scheme = "file".data then some 0
  else if scheme = "gopher".data then some 70
  else if scheme = "http".data then some 80
  else if scheme = "https".data then some 443
  else if scheme = "ws".data then some 80
  else if scheme = "wss".data then some 443
  else none

/-- `isSpecialScheme`: the scheme has a default port entry. -/
def isSpecialScheme (scheme : List Char) : Bool :=
  (defaultPort scheme).isSome

/-- `isSpecial` on a URL record. -/
def isSpecial (url : UrlRecord) : Bool :=
  isSpecialScheme url.scheme

/-- `includesCredentials`. -/
def includesCredentials (url : UrlRecord) : Bool :=
  url.username != [] || url.password != []

/-- `cannotHaveUsernamePasswordPort`. -/
def cannotHaveUsernamePasswordPort (url : UrlRecord) : Bool :=
  (url.host = none || url.host = some Host.emptyHost) ||
    url.cannotBeABaseURL || url.scheme = "file".data

/-- `isWindowsDriveLetter`: exactly two code points, ASCII alpha then
    `:` or `|`. -/
def isWindowsDriveLetter (input : List Char) : Bool :=
  match input with
  | [a, b] => isAsciiAlpha a && (b == ':' || b == '|')
  | _ => false

/-- `isNormalizedWindowsDriveLetter`: the second code point must be `:`. -/
def isNormalizedWindowsDriveLetter (input : List Char) : Bool :=
  isWindowsDriveLetter input && input[1]? = some ':'

/-- `startsWithWindowsDriveLetter(input, cursor)`.  Only called by the
    parser with a nonnegative cursor. -/
def startsWithWindowsDriveLetter (input : List Char) (cursor : Int) : Bool :=
  let rest := input.drop cursor.toNat
  decide (2 ≤ rest.length) && isWindowsDriveLetter (rest.take 2) &&
    (rest.length == 2 ||
      (match rest[2]? with
       | some c => c == '/' || c == '\\' || c == '?' || c == '#'
       | none => false))

/-- `shortenPath`: drop the last path segment, except for a `file:` URL
    whose single segment is a normalized Windows drive letter. -/
def shortenPath (url : UrlRecord) : UrlRecord :=
  if url.path = [] then url
  else if url.scheme = "file".data && url.path.length = 1 &&
      isNormalizedWindowsDriveLetter (url.path.headD []) then url
  else { url with path := url.path.dropLast }

/-- `isSingleDotPathSegment`. -/
def isSingleDotPathSegment (input : List Char) : Bool :=
  input = ['.'] || input.map charLower = "%2e".data

/-- `isDoubleDotPathSegment`. -/
def isDoubleDotPathSegment (input : List Char) : Bool :=
  input = "..".data ||
    (let l := input.map charLower
     l = ".%2e".data || l = "%2e.".data || l = "%2e%2e".data)

/-- `parseInt(buffer, 10)` for the digit-only buffers accumulated by the
    port state: the decimal value of the maximal leading digit run. -/
def parseIntDec (l : List Char) : Nat :=
  (l.takeWhile isAsciiDigit).foldl (fun a c => 10 * a + (c.toNat - 48)) 0

/-- `'' + port`: decimal serialization of the port number. -/
def natToDecimal (n : Nat) : List Char :=
  Nat.toDigits 10 n

/-! ## The parser state machine (`parse` in `src/url.ts`) -/

/-- The 21 states of the `ParserState` enum. -/
inductive ParserState where
  | schemeStart
  | scheme
  | noScheme
  | specialRelativeOrAuthority
  | pathOrAuthority
  | relative
  | relativeSlash
  | specialAuthoritySlashes
  | specialAuthorityIgnoreSlashes
  | authority
  | host
  | hostname
  | port
  | file
  | fileSlash
  | fileHost
  | pathStart
  | path
  | cannotBeABaseURLPath
  | query
  | fragment
deriving DecidableEq, Repr

/-- The read-only data of one `parse` call: the (already cleaned) input,
    the base record and the state override. -/
structure Ctx where
  input : List Char
  base : Option UrlRecord
  override : Option ParserState
deriving Repr

/-- The mutable state of the parse loop: the record being built or
    mutated, the current state, the buffer, the three flags and the
    cursor.  The cursor is an `Int` because the source transiently
    decrements it to -1. -/
structure MState where
  url : UrlRecord
  state : ParserState
  buffer : List Char
  seenAt : Bool
  seenBracket : Bool
  passwordTokenSeen : Bool
  cursor : Int
deriving Repr

/-- `input[i]` for a JavaScript string: `undefined` (here `none`) when
    out of range. -/
def getAt (l : List Char) (i : Int) : Option Char :=
  if 0 ≤ i then l[i.toNat]? else none

/-- Outcome of one iteration of the state machine: either continue with
    a new loop state, or return.  `ret b u` models `return b` after the
    in-place mutations producing `u` (mutations persist even when `b` is
    `false`, because the source mutates the caller record in place). -/
inductive StepRes where
  | next (s : MState)
  | ret (success : Bool) (url : UrlRecord)
deriving Repr

/-- Re-scan of the authority buffer when `@` is seen: split at the first
    `:` into username/password, percent-escape with the userinfo set and
    append to the record (the inner loop of the authority state). -/
def authorityCommit : List Char → Bool → UrlRecord → Bool × UrlRecord
  | [], pwdSeen, url => (pwdSeen, url)
  | cp :: rest, pwdSeen, url =>
    if cp = ':' && !pwdSeen then authorityCommit rest true url
    else
      let enc := percentEscape cp
      if pwdSeen then authorityCommit rest pwdSeen { url with password := url.password ++ enc }
      else authorityCommit rest pwdSeen { url with username := url.username ++ enc }

/-- The `while` loop of step 6 of the path state's file cleanup: while
    the path has more than one segment and starts with an empty segment,
    remove the first segment. -/
def fileCleanupPath : List (List Char) → List (List Char)
  | [] :: seg :: rest => fileCleanupPath (seg :: rest)
  | p => p

/-- `url._path[0] += enc` in the cannot-be-a-base-URL path state.  On an
    empty path JavaScript reads `undefined` and the concatenation
    stringifies it, which the last branch mirrors (unreachable from the
    public entry points, which always seed the path). -/
def pathAppendFirst (path : List (List Char)) (enc : List Char) : List (List Char) :=
  match path with
  | p :: rest => (p ++ enc) :: rest
  | [] => ["undefined".data ++ enc]

/-- `url._query += s` and `url._fragment += s`: JavaScript `+=` on a
    null field stringifies the null (unreachable from the public entry
    points, which set the field to the empty string first). -/
def jsAppendOpt (field : Option (List Char)) (s : List Char) : List Char :=
  (match field with
   | some q => q
   | none => "null".data) ++ s

/-- Steps 1.2-1.4 of the path state's terminator handling: dot-segment
    handling, the Windows drive letter rewrite for an empty `file:`
    path, and the append of the buffer.  `slashLike` is the repeated
    test "c is `/`, or the URL is special and c is `\`". -/
def pathSegmentUrl (url : UrlRecord) (buffer : List Char) (slashLike : Bool) : UrlRecord :=
  if isDoubleDotPathSegment buffer then
    let u := shortenPath url
    if !slashLike then { u with path := u.path ++ [[]] } else u
  else if isSingleDotPathSegment buffer && !slashLike then
    { url with path := url.path ++ [[]] }
  else if !isSingleDotPathSegment buffer then
    if url.scheme = "file".data && url.path = [] && isWindowsDriveLetter buffer then
      let u :=
        if url.host ≠ some Host.emptyHost && url.host ≠ none then
          { url with host := some Host.emptyHost }
        else url
      -- replace the second code point of the buffer with ':'
      { u with path := u.path ++ [[buffer.headD ' ', ':']] }
    else
      { url with path := url.path ++ [buffer] }
  else url

/-- The mutation the path state performs on the record when it reaches a
    terminator (steps 1.2-1.6 of the path state): the segment commit
    above followed by the file cleanup loop. -/
def pathTerminatorUrl (url : UrlRecord) (buffer : List Char) (c : Option Char) : UrlRecord :=
  let url1 := pathSegmentUrl url buffer
    (c = some '/' || (isSpecial url && c = some '\\'))
  if url1.scheme = "file".data && (c = none || c = some '?' || c = some '#') then
    { url1 with path := fileCleanupPath url1.path }
  else url1

/-- One iteration of the `while` loop of `parse` in `src/url.ts`: the
    21-case `switch` on the state, including the trailing `cursor++`.
    Branches that run `continue` (or decrement the cursor before the
    shared increment) leave the net cursor as the source does.  Where
    the source dereferences `base!` the corresponding branch has already
    established that the base is present; `baseD` is that record. -/
def step (ctx : Ctx) (s : MState) : StepRes :=
  let c := getAt ctx.input s.cursor
  let baseD := ctx.base.getD {}
  match s.state with
  | ParserState.schemeStart =>
    match c with
    | some ch =>
      -- 1. ASCII alpha: append lowercased, go to scheme state.
      if isAsciiAlpha ch then
        StepRes.next { s with buffer := s.buffer ++ [charLower ch],
                              state := ParserState.scheme, cursor := s.cursor + 1 }
      -- 2. No override: no scheme state, reread this code point.
      else if ctx.override.isNone then
        StepRes.next { s with buffer := [], state := ParserState.noScheme }
      -- 3. Otherwise: failure.
      else StepRes.ret false s.url
    | none =>
      if ctx.override.isNone then
        StepRes.next { s with buffer := [], state := ParserState.noScheme }
      else StepRes.ret false s.url
  | ParserState.scheme =>
    match c with
    | some ch =>
      -- 1. Scheme code point: append lowercased.
      if isSchemeChar ch then
        StepRes.next { s with buffer := s.buffer ++ [charLower ch], cursor := s.cursor + 1 }
      else if ch = ':' then
        if ctx.override.isSome then
          -- 2.1.1-2.1.4: early returns for an incompatible scheme change.
          if isSpecialScheme s.url.scheme && !isSpecialScheme s.buffer then
            StepRes.ret true s.url
          else if !isSpecialScheme s.url.scheme && isSpecialScheme s.buffer then
            StepRes.ret true s.url
          else if (includesCredentials s.url || s.url.port ≠ none) && s.buffer = "file".data then
            StepRes.ret true s.url
          else if s.url.scheme = "file".data &&
              (s.url.host = some Host.emptyHost || s.url.host = none) then
            StepRes.ret true s.url
          else
            -- 2.2-2.3: commit the scheme, clear a now-default port, return.
            let url := { s.url with scheme := s.buffer }
            let url :=
              if isSpecial url && url.port = defaultPort url.scheme then
                { url with port := none }
              else url
            StepRes.ret true url
        else
          -- 2.2, 2.4-2.9 without an override.
          let url := { s.url with scheme := s.buffer }
          if url.scheme = "file".data then
            -- (validation error when the remainder does not start "//")
            StepRes.next { s with url := url, buffer := [],
                                  state := ParserState.file, cursor := s.cursor + 1 }
          else if isSpecial url &&
              (match ctx.base with
               | some b => b.scheme = url.scheme
               | none => false) then
            StepRes.next { s with url := url, buffer := [],
                                  state := ParserState.specialRelativeOrAuthority,
                                  cursor := s.cursor + 1 }
          else if isSpecial url then
            StepRes.next { s with url := url, buffer := [],
                                  state := ParserState.specialAuthoritySlashes,
                                  cursor := s.cursor + 1 }
          else if getAt ctx.input (s.cursor + 1) = some '/' then
            StepRes.next { s with url := url, buffer := [],
                                  state := ParserState.pathOrAuthority,
                                  cursor := s.cursor + 2 }
          else
            StepRes.next { s with
              url := { url with cannotBeABaseURL := true, path := url.path ++ [[]] },
              buffer := [], state := ParserState.cannotBeABaseURLPath,
              cursor := s.cursor + 1 }
      -- 3. No override: restart from the first code point in no scheme state.
      else if ctx.override.isNone then
        StepRes.next { s with buffer := [], state := ParserState.noScheme, cursor := 0 }
      -- 4. Otherwise: failure.
      else StepRes.ret false s.url
    | none =>
      if ctx.override.isNone then
        StepRes.next { s with buffer := [], state := ParserState.noScheme, cursor := 0 }
      else StepRes.ret false s.url
  | ParserState.noScheme =>
    match ctx.base with
    | none => StepRes.ret false s.url
    | some b =>
      -- 1. Also failure when the base cannot be a base and c is not '#'.
      if b.cannotBeABaseURL && c ≠ some '#' then StepRes.ret false s.url
      -- 2. Fragment of a cannot-be-a-base base.
      else if b.cannotBeABaseURL && c = some '#' then
        StepRes.next { s with
          url := { s.url with scheme := b.scheme, path := b.path, query := b.query,
                              fragment := some [], cannotBeABaseURL := true },
          state := ParserState.fragment, cursor := s.cursor + 1 }
      -- 3./4. Relative or file state, rereading this code point.
      else if b.scheme ≠ "file".data then
        StepRes.next { s with state := ParserState.relative }
      else
        StepRes.next { s with state := ParserState.file }
  | ParserState.specialRelativeOrAuthority =>
    if c = some '/' && getAt ctx.input (s.cursor + 1) = some '/' then
      StepRes.next { s with state := ParserState.specialAuthorityIgnoreSlashes,
                            cursor := s.cursor + 1 }
    else
      -- (validation error) reread this code point in relative state
      StepRes.next { s with state := ParserState.relative }
  | ParserState.pathOrAuthority =>
    if c = some '/' then
      StepRes.next { s with state := ParserState.authority, cursor := s.cursor + 1 }
    else
      StepRes.next { s with state := ParserState.path }
  | ParserState.relative =>
    let url := { s.url with scheme := baseD.scheme }
    match c with
    | none =>
      StepRes.next { s with
        url := { url with username := baseD.username, password := baseD.password,
                          host := baseD.host, port := baseD.port, path := baseD.path,
                          query := baseD.query },
        cursor := s.cursor + 1 }
    | some ch =>
      if ch = '/' then
        StepRes.next { s with url := url, state := ParserState.relativeSlash,
                              cursor := s.cursor + 1 }
      else if ch = '?' then
        StepRes.next { s with
          url := { url with username := baseD.username, password := baseD.password,
                            host := baseD.host, port := baseD.port, path := baseD.path,
                            query := some [] },
          state := ParserState.query, cursor := s.cursor + 1 }
      else if ch = '#' then
        StepRes.next { s with
          url := { url with username := baseD.username, password := baseD.password,
                            host := baseD.host, port := baseD.port, path := baseD.path,
                            query := baseD.query, fragment := some [] },
          state := ParserState.fragment, cursor := s.cursor + 1 }
      else if ch = '\\' && isSpecial url then
        -- (validation error)
        StepRes.next { s with url := url, state := ParserState.relativeSlash,
                              cursor := s.cursor + 1 }
      else
        StepRes.next { s with
          url := { url with username := baseD.username, password := baseD.password,
                            host := baseD.host, port := baseD.port,
                            path := baseD.path.dropLast },
          state := ParserState.path }
  | ParserState.relativeSlash =>
    if isSpecial s.url && (c = some '/' || c = some '\\') then
      -- (validation error when '\')
      StepRes.next { s with state := ParserState.specialAuthorityIgnoreSlashes,
                            cursor := s.cursor + 1 }
    else if c = some '/' then
      StepRes.next { s with state := ParserState.authority, cursor := s.cursor + 1 }
    else
      StepRes.next { s with
        url := { s.url with username := baseD.username, password := baseD.password,
                            host := baseD.host, port := baseD.port },
        state := ParserState.path }
  | ParserState.specialAuthoritySlashes =>
    if c = some '/' && getAt ctx.input (s.cursor + 1) = some '/' then
      StepRes.next { s with state := ParserState.specialAuthorityIgnoreSlashes,
                            cursor := s.cursor + 2 }
    else
      -- (validation error) continue without advancing
      StepRes.next { s with state := ParserState.specialAuthorityIgnoreSlashes }
  | ParserState.specialAuthorityIgnoreSlashes =>
    if c ≠ some '/' && c ≠ some '\\' then
      StepRes.next { s with state := ParserState.authority }
    else
      -- (validation error)
      StepRes.next { s with cursor := s.cursor + 1 }
  | ParserState.authority =>
    if c = some '@' then
      -- (validation error) flush the buffer into username/password
      let buffer := if s.seenAt then "%40".data ++ s.buffer else s.buffer
      let committed := authorityCommit buffer s.passwordTokenSeen s.url
      StepRes.next { s with url := committed.2, passwordTokenSeen := committed.1,
                            seenAt := true, buffer := [], cursor := s.cursor + 1 }
    else if (c = none || c = some '/' || c = some '?' || c = some '#') ||
        (isSpecial s.url && c = some '\\') then
      if s.seenAt && s.buffer = [] then StepRes.ret false s.url
      else
        -- rewind the cursor past the buffer and the terminator
        StepRes.next { s with buffer := [], state := ParserState.host,
                              cursor := s.cursor - (s.buffer.length + 1) + 1 }
    else
      match c with
      | some ch => StepRes.next { s with buffer := s.buffer ++ [ch], cursor := s.cursor + 1 }
      | none => StepRes.ret false s.url  -- unreachable: none is a terminator
  | ParserState.host | ParserState.hostname =>
    if ctx.override.isSome && s.url.scheme = "file".data then
      StepRes.next { s with state := ParserState.fileHost }
    else if c = some ':' && !s.seenBracket then
      if s.buffer = [] then StepRes.ret false s.url
      else
        match parseHost s.buffer (isSpecial s.url) with
        | none => StepRes.ret false s.url
        | some h =>
          let url := { s.url with host := some h }
          if ctx.override = some ParserState.hostname then StepRes.ret true url
          else StepRes.next { s with url := url, buffer := [],
                                     state := ParserState.port, cursor := s.cursor + 1 }
    else if (c = none || c = some '/' || c = some '?' || c = some '#') ||
        (isSpecial s.url && c = some '\\') then
      -- the source decrements the cursor here; the loop increment restores it
      if isSpecial s.url && s.buffer = [] then StepRes.ret false s.url
      else if ctx.override.isSome && s.buffer = [] &&
          (includesCredentials s.url || s.url.port ≠ none) then
        StepRes.ret true s.url
      else
        match parseHost s.buffer (isSpecial s.url) with
        | none => StepRes.ret false s.url
        | some h =>
          let url := { s.url with host := some h }
          if ctx.override.isSome then StepRes.ret true url
          else StepRes.next { s with url := url, buffer := [],
                                     state := ParserState.pathStart }
    else
      match c with
      | some ch =>
        let seenBracket :=
          if ch = '[' then true else if ch = ']' then false else s.seenBracket
        StepRes.next { s with seenBracket := seenBracket, buffer := s.buffer ++ [ch],
                              cursor := s.cursor + 1 }
      | none => StepRes.ret false s.url  -- unreachable: none is a terminator
  | ParserState.port =>
    if (match c with
        | some ch => isAsciiDigit ch
        | none => false) then
      StepRes.next { s with buffer := s.buffer ++ [c.getD ' '], cursor := s.cursor + 1 }
    else if (c = none || c = some '/' || c = some '?' || c = some '#') ||
        (isSpecial s.url && c = some '\\') || ctx.override.isSome then
      if s.buffer ≠ [] then
        let port := parseIntDec s.buffer
        if port > 2 ^ 16 - 1 then StepRes.ret false s.url
        else
          let url := { s.url with
            port := if defaultPort s.url.scheme = some port then none else some port }
          if ctx.override.isSome then StepRes.ret true url
          else StepRes.next { s with url := url, buffer := [],
                                     state := ParserState.pathStart }
      else if ctx.override.isSome then StepRes.ret true s.url
      else StepRes.next { s with state := ParserState.pathStart }
    else StepRes.ret false s.url
  | ParserState.file =>
    let url := { s.url with scheme := "file".data }
    if c = some '/' || c = some '\\' then
      -- (validation error when '\')
      StepRes.next { s with url := url, state := ParserState.fileSlash, cursor := s.cursor + 1 }
    else
      match ctx.base with
      | some b =>
        if b.scheme = "file".data then
          match c with
          | none =>
            StepRes.next { s with
              url := { url with host := b.host, path := b.path, query := b.query },
              cursor := s.cursor + 1 }
          | some ch =>
            if ch = '?' then
              StepRes.next { s with
                url := { url with host := b.host, path := b.path, query := some [] },
                state := ParserState.query, cursor := s.cursor + 1 }
            else if ch = '#' then
              StepRes.next { s with
                url := { url with host := b.host, path := b.path, query := b.query,
                                  fragment := some [] },
                state := ParserState.fragment, cursor := s.cursor + 1 }
            else if !startsWithWindowsDriveLetter ctx.input s.cursor then
              StepRes.next { s with
                url := shortenPath { url with host := b.host, path := b.path },
                state := ParserState.path }
            else
              -- (validation error)
              StepRes.next { s with url := url, state := ParserState.path }
        else
          StepRes.next { s with url := url, state := ParserState.path }
      | none =>
        StepRes.next { s with url := url, state := ParserState.path }
  | ParserState.fileSlash =>
    if c = some '/' || c = some '\\' then
      -- (validation error when '\')
      StepRes.next { s with state := ParserState.fileHost, cursor := s.cursor + 1 }
    else
      let url :=
        match ctx.base with
        | some b =>
          if b.scheme = "file".data && !startsWithWindowsDriveLetter ctx.input s.cursor then
            -- `base._path[0]` of an empty path is undefined in the
            -- source; `headD` makes the drive-letter test false then
            if isNormalizedWindowsDriveLetter (b.path.headD []) then
              { s.url with path := s.url.path ++ [b.path.headD []] }
            else
              { s.url with host := b.host }
          else s.url
        | none => s.url
      StepRes.next { s with url := url, state := ParserState.path }
  | ParserState.fileHost =>
    if c = none || c = some '/' || c = some '\\' || c = some '?' || c = some '#' then
      -- the source decrements the cursor here; the loop increment restores it
      if ctx.override.isNone && isWindowsDriveLetter s.buffer then
        -- (validation error) the buffer is kept for the path state
        StepRes.next { s with state := ParserState.path }
      else if s.buffer = [] then
        let url := { s.url with host := some Host.emptyHost }
        if ctx.override.isSome then StepRes.ret true url
        else StepRes.next { s with url := url, state := ParserState.pathStart }
      else
        match parseHost s.buffer (isSpecial s.url) with
        | none => StepRes.ret false s.url
        | some h =>
          -- The localhost rewrite of the source reads the field
          -- `_domainOrAddress`, which the host objects of `src/host.ts`
          -- do not carry (they store `_domain`), so the comparison with
          -- "localhost" is never true and the rewrite never fires.
          let url := { s.url with host := some h }
          if ctx.override.isSome then StepRes.ret true url
          else StepRes.next { s with url := url, buffer := [],
                                     state := ParserState.pathStart }
    else
      match c with
      | some ch => StepRes.next { s with buffer := s.buffer ++ [ch], cursor := s.cursor + 1 }
      | none => StepRes.ret false s.url  -- unreachable: none is a terminator
  | ParserState.pathStart =>
    if isSpecial s.url then
      -- (validation error when '\')
      if c ≠ some '/' && c ≠ some '\\' then
        StepRes.next { s with state := ParserState.path }
      else
        StepRes.next { s with state := ParserState.path, cursor := s.cursor + 1 }
    else if ctx.override.isNone && c = some '?' then
      StepRes.next { s with url := { s.url with query := some [] },
                            state := ParserState.query, cursor := s.cursor + 1 }
    else if ctx.override.isNone && c = some '#' then
      StepRes.next { s with url := { s.url with fragment := some [] },
                            state := ParserState.fragment, cursor := s.cursor + 1 }
    else if c ≠ none then
      if c ≠ some '/' then
        StepRes.next { s with state := ParserState.path }
      else
        StepRes.next { s with state := ParserState.path, cursor := s.cursor + 1 }
    else
      StepRes.next { s with cursor := s.cursor + 1 }
  | ParserState.path =>
    if (c = none || c = some '/') || (isSpecial s.url && c = some '\\') ||
        (ctx.override.isNone && (c = some '?' || c = some '#')) then
      -- (validation error when '\' under a special scheme)
      if c = some '?' then
        StepRes.next { s with
          url := { pathTerminatorUrl s.url s.buffer c with query := some [] },
          buffer := [], state := ParserState.query, cursor := s.cursor + 1 }
      else if c = some '#' then
        StepRes.next { s with
          url := { pathTerminatorUrl s.url s.buffer c with fragment := some [] },
          buffer := [], state := ParserState.fragment, cursor := s.cursor + 1 }
      else
        StepRes.next { s with url := pathTerminatorUrl s.url s.buffer c,
                              buffer := [], cursor := s.cursor + 1 }
    else
      match c with
      | some ch =>
        -- (validation error for a malformed percent escape)
        StepRes.next { s with buffer := s.buffer ++ percentEscape ch, cursor := s.cursor + 1 }
      | none => StepRes.ret false s.url  -- unreachable: none is a terminator
  | ParserState.cannotBeABaseURLPath =>
    if c = some '?' then
      StepRes.next { s with url := { s.url with query := some [] },
                            state := ParserState.query, cursor := s.cursor + 1 }
    else if c = some '#' then
      StepRes.next { s with url := { s.url with fragment := some [] },
                            state := ParserState.fragment, cursor := s.cursor + 1 }
    else
      match c with
      | some ch =>
        -- (validation error for a malformed percent escape)
        StepRes.next { s with
          url := { s.url with path := pathAppendFirst s.url.path (percentEscape ch) },
          cursor := s.cursor + 1 }
      | none => StepRes.next { s with cursor := s.cursor + 1 }
  | ParserState.query =>
    if c = none || (ctx.override.isNone && c = some '#') then
      let url := { s.url with
        query := some (jsAppendOpt s.url.query (s.buffer.flatMap percentEscapeQuery)) }
      if c = some '#' then
        StepRes.next { s with url := { url with fragment := some [] }, buffer := [],
                              state := ParserState.fragment, cursor := s.cursor + 1 }
      else
        StepRes.next { s with url := url, buffer := [], cursor := s.cursor + 1 }
    else
      match c with
      | some ch =>
        -- (validation error for a malformed percent escape)
        StepRes.next { s with buffer := s.buffer ++ [ch], cursor := s.cursor + 1 }
      | none => StepRes.ret false s.url  -- unreachable: none is a terminator
  | ParserState.fragment =>
    match c with
    | none => StepRes.next { s with cursor := s.cursor + 1 }
    | some ch =>
      if ch = Char.ofNat 0 then
        -- (validation error; the code point is dropped)
        StepRes.next { s with cursor := s.cursor + 1 }
      else
        -- (validation error for a malformed percent escape)
        StepRes.next { s with
          url := { s.url with fragment := some (jsAppendOpt s.url.fragment (percentEscape ch)) },
          cursor := s.cursor + 1 }

/-- The loop condition of step 11: keep running while the previous code
    point is not EOF, treating position 0 specially. -/
def loopCond (ctx : Ctx) (s : MState) : Bool :=
  s.cursor = 0 || (getAt ctx.input (s.cursor - 1)).isSome

/-- The parse loop, with explicit fuel.  `none` means the fuel ran out
    (shown elsewhere never to happen for the fuel `parse` supplies).
    Falling out of the loop returns the record, a success. -/
def parseRun (ctx : Ctx) : Nat → MState → Option (Bool × UrlRecord)
  | 0, _ => none
  | fuel + 1, s =>
    if loopCond ctx s then
      match step ctx s with
      | StepRes.ret b u => some (b, u)
      | StepRes.next s' => parseRun ctx fuel s'
    else some (true, s.url)

/-- Removal of leading and trailing C0 controls and spaces (the
    `LEADING_OR_TRAILING_C0_CONTROL_OR_SPACE` replacement). -/
def stripControlAndSpace (input : List Char) : List Char :=
  ((input.dropWhile isC0ControlOrSpace).reverse.dropWhile isC0ControlOrSpace).reverse

/-- Removal of all ASCII tabs and newlines (the `TAB_OR_NEWLINE`
    replacement). -/
def stripTabNewline (input : List Char) : List Char :=
  input.filter fun c => !isTabOrNewline c

/-- Fuel on which the parse loop is run: a bound on the length of any
    run of the state machine (established by the termination theorem). -/
def fuelFor (input : List Char) : Nat :=
  22 * (input.length + 2)

/-- The initial loop state of a parse call. -/
def initState (url : UrlRecord) (override : Option ParserState) : MState :=
  { url := url, state := override.getD ParserState.schemeStart, buffer := [],
    seenAt := false, seenBracket := false, passwordTokenSeen := false, cursor := 0 }

/-- `parse(input, base, url?, stateOverride?)` from `src/url.ts`.
    Without a record argument a fresh record is used and leading and
    trailing C0 controls and spaces are stripped; tabs and newlines are
    always stripped.  The result pairs the boolean outcome (`false` is
    failure) with the record as mutated by the call. -/
def parse (input : List Char) (base : Option UrlRecord) (urlArg : Option UrlRecord)
    (override : Option ParserState) : Option (Bool × UrlRecord) :=
  let seed : UrlRecord × List Char :=
    match urlArg with
    | some u => (u, input)
    | none => ({}, stripControlAndSpace input)
  let input := stripTabNewline seed.2
  let ctx : Ctx := { input := input, base := base, override := override }
  parseRun ctx (fuelFor input) (initState seed.1 override)

/-- A parse of a fresh record (the two-argument overload). -/
def parseFresh (input : List Char) (base : Option UrlRecord := none) :
    Option (Bool × UrlRecord) :=
  parse input base none none

/-! ## Serializer (`serializeUrl` in `src/url.ts`) -/

/-- `url._path.join('/')`. -/
def joinSlash : List (List Char) → List Char
  | [] => []
  | [x] => x
  | x :: rest => x ++ '/' :: joinSlash rest

/-- `serializeUrl(url, excludeFragment)` from `src/url.ts`.  The host is
    emitted through `serializeHost` and JavaScript string concatenation
    (`hostToJsString`).  For a cannot-be-a-base record the source reads
    `url._path[0]`; on an (unreachable) empty path JavaScript would
    stringify undefined, which the `headD` default mirrors. -/
def serializeUrl (url : UrlRecord) (excludeFragment : Bool := false) : List Char :=
  url.scheme ++ [':'] ++
  (match url.host with
   | some h =>
     "//".data ++
     (if includesCredentials url then
        url.username ++ (if url.password ≠ [] then ':' :: url.password else []) ++ ['@']
      else []) ++
     hostToJsString (serializeHost h) ++
     (match url.port with
      | some p => ':' :: natToDecimal p
      | none => [])
   | none => if url.scheme = "file".data then "//".data else []) ++
  (if url.cannotBeABaseURL then url.path.headD "undefined".data
   else '/' :: joinSlash url.path) ++
  (match url.query with
   | some q => '?' :: q
   | none => []) ++
  (if !excludeFragment then
     match url.fragment with
     | some f => '#' :: f
     | none => []
   else [])

/-! ## URL object attribute setters (`class URL` in `src/url.ts`)

Strings are already sequences of Unicode scalar values here, so the
`toUSVString` coercion of the container operations (from the
`usvstring` module, not under `src/`) is the identity and is omitted. -/

/-- One state-override parse on an existing record: the record that
    results from the in-place mutations, paired with the boolean
    outcome.  The fuel default (`none` branch) is unreachable: the
    termination theorem shows the supplied fuel always suffices. -/
def runOverride (input : List Char) (rec : UrlRecord) (ov : ParserState) :
    Bool × UrlRecord :=
  match parse input none (some rec) (some ov) with
  | some r => r
  | none => (false, rec)

/-- `set protocol`: parse `value + ":"` with the scheme start override. -/
def protocolSet (rec : UrlRecord) (value : List Char) : UrlRecord :=
  (runOverride (value ++ [':']) rec ParserState.schemeStart).2

/-- `set username`: a no-op when the record cannot have credentials;
    otherwise the value is assigned directly (percent-encoding is a TODO
    in the source). -/
def usernameSet (rec : UrlRecord) (value : List Char) : UrlRecord :=
  if cannotHaveUsernamePasswordPort rec then rec
  else { rec with username := value }

/-- `set password`: like `set username`. -/
def passwordSet (rec : UrlRecord) (value : List Char) : UrlRecord :=
  if cannotHaveUsernamePasswordPort rec then rec
  else { rec with password := value }

/-- `set host`: a no-op for a cannot-be-a-base record; otherwise parse
    with the host state override. -/
def hostSet (rec : UrlRecord) (value : List Char) : UrlRecord :=
  if rec.cannotBeABaseURL then rec
  else (runOverride value rec ParserState.host).2

/-- `set hostname`: a no-op for a cannot-be-a-base record; otherwise
    parse with the hostname state override. -/
def hostnameSet (rec : UrlRecord) (value : List Char) : UrlRecord :=
  if rec.cannotBeABaseURL then rec
  else (runOverride value rec ParserState.hostname).2

/-- `set port`: a no-op when the record cannot have a port; the empty
    string clears the port, otherwise parse with the port state
    override. -/
def portSet (rec : UrlRecord) (value : List Char) : UrlRecord :=
  if cannotHaveUsernamePasswordPort rec then rec
  else if value = [] then { rec with port := none }
  else (runOverride value rec ParserState.port).2

/-- `set pathname`: a no-op for a cannot-be-a-base record; otherwise the
    path is emptied and the value parsed with the path start override. -/
def pathnameSet (rec : UrlRecord) (value : List Char) : UrlRecord :=
  if rec.cannotBeABaseURL then rec
  else (runOverride value { rec with path := [] } ParserState.pathStart).2

/-- `set hash`: the empty string clears the fragment; otherwise one
    leading `#` is stripped, the fragment set to the empty string and
    the value parsed with the fragment state override. -/
def hashSet (rec : UrlRecord) (value : List Char) : UrlRecord :=
  if value = [] then { rec with fragment := none }
  else
    let value := if value.head? = some '#' then value.tail else value
    (runOverride value { rec with fragment := some [] } ParserState.fragment).2

/-! ## Query container (`src/search-params.ts`) -/

/-- A URL object together with its bound query container: the record and
    the container's list of name-value pairs (the `_list` of
    `URLSearchParams`; the `_url` back reference is this bundling). -/
structure UrlObject where
  url : UrlRecord
  params : List (List Char × List Char)
deriving DecidableEq, Repr

/-- The private `update` step of `src/search-params.ts` for a bound
    container: serialize the list; an empty serialization stores a null
    query, otherwise the string is stored. -/
def updateParams (u : UrlObject) : UrlObject :=
  let query := serializeUrlEncoded u.params
  { u with url := { u.url with query := if query = [] then none else some query } }

/-- `URLSearchParams.append`. -/
def appendParams (u : UrlObject) (name value : List Char) : UrlObject :=
  updateParams { u with params := u.params ++ [(name, value)] }

/-- `URLSearchParams.delete`: remove all pairs with the given name. -/
def deleteParams (u : UrlObject) (name : List Char) : UrlObject :=
  updateParams { u with params := u.params.filter fun p => p.1 ≠ name }

/-- The `while` loop of `URLSearchParams.set`: overwrite the value of
    the first pair with the given name, drop the following pairs with
    that name, and report whether a pair was found. -/
def setPairsLoop (name value : List Char) :
    List (List Char × List Char) → Bool → List (List Char × List Char)
  | [], _ => []
  | p :: rest, found =>
    if p.1 = name then
      if found then setPairsLoop name value rest found
      else (p.1, value) :: setPairsLoop name value rest true
    else p :: setPairsLoop name value rest found

/-- The list produced by `URLSearchParams.set`: the loop above, then an
    append when no pair was found. -/
def setPairs (l : List (List Char × List Char)) (name value : List Char) :
    List (List Char × List Char) :=
  let l' := setPairsLoop name value l false
  if l.any (fun p => p.1 = name) then l' else l' ++ [(name, value)]

/-- `URLSearchParams.set` on a bound container. -/
def setParams (u : UrlObject) (name value : List Char) : UrlObject :=
  updateParams { u with params := setPairs u.params name value }

/-- Code-unit (here scalar-value) lexicographic strict order on names,
    the order induced by the `compareParams` comparator. -/
def lexLt : List Char → List Char → Bool
  | [], [] => false
  | [], _ :: _ => true
  | _ :: _, [] => false
  | a :: as, b :: bs =>
    if a.toNat < b.toNat then true
    else if b.toNat < a.toNat then false
    else lexLt as bs

/-- Stable insertion of a pair into a name-sorted list (after any pairs
    of equal name). -/
def insertPair (x : List Char × List Char) :
    List (List Char × List Char) → List (List Char × List Char)
  | [] => [x]
  | y :: rest => if lexLt x.1 y.1 then x :: y :: rest else y :: insertPair x rest

/-- Modelled from the spec: `inplaceStableSort` with the `compareParams`
    comparator (the `util` module is not under `src/`); section 4.H
    fixes a stable sort by code-unit comparison of names only. -/
def sortPairs (l : List (List Char × List Char)) : List (List Char × List Char) :=
  l.foldl (fun acc x => insertPair x acc) []

/-- `URLSearchParams.sort` on a bound container. -/
def sortParams (u : UrlObject) : UrlObject :=
  updateParams { u with params := sortPairs u.params }

/-- The `search` getter: the empty string for a null or empty query,
    otherwise `?` followed by the query. -/
def searchGet (u : UrlObject) : List Char :=
  match u.url.query with
  | none => []
  | some q => if q = [] then [] else '?' :: q

/-- The `search` setter: the empty string clears the query and empties
    the container; otherwise one leading `?` is stripped, the query set
    to the empty string, the value parsed with the query state override,
    and the container list replaced by the parse of the value. -/
def searchSet (u : UrlObject) (value : List Char) : UrlObject :=
  if value = [] then { url := { u.url with query := none }, params := [] }
  else
    let value := if value.head? = some '?' then value.tail else value
    let rec1 := { u.url with query := some [] }
    let rec2 := (runOverride value rec1 ParserState.query).2
    { url := rec2, params := parseUrlEncoded value }

/-- The container mutations of claim C4. -/
inductive ParamsOp where
  | append (name value : List Char)
  | delete (name : List Char)
  | set (name value : List Char)
  | sort
deriving DecidableEq, Repr

/-- Apply one container mutation. -/
def applyParamsOp (u : UrlObject) : ParamsOp → UrlObject
  | ParamsOp.append name value => appendParams u name value
  | ParamsOp.delete name => deleteParams u name
  | ParamsOp.set name value => setParams u name value
  | ParamsOp.sort => sortParams u

/-! ## Sample records used by the concrete evaluations -/

/-- The record `parse` produces for `http://h/`. -/
def sampleHttpRecord : UrlRecord :=
  { scheme := "http".data, host := some (Host.domainOrIpv4 "h".data), path := [[]] }

/-- The record `parse` produces for `http://[object Object]/`, the
    serialization of `sampleHttpRecord`. -/
def sampleReparsedRecord : UrlRecord :=
  { scheme := "http".data, host := some (Host.ipv6 "object Object".data), path := [[]] }

/-! ## Supporting lemmas for the percent-encoder claims -/

/-- The pass-through condition the claim states for the general set:
    scalar value strictly between 0x20 and 0x7F and not one of the
    forbidden code points 0x22 0x23 0x3C 0x3E 0x3F 0x60
    (quote, hash, less-than, greater-than, question mark, backtick). -/
def generalPassThrough (c : Char) : Prop :=
  0x20 < c.toNat ∧ c.toNat < 0x7F ∧
    c.toNat ∉ ([0x22, 0x23, 0x3C, 0x3E, 0x3F, 0x60] : List Nat)

/-- The pass-through condition for the query set: the forbidden list
    omits the question mark (0x3F). -/
def queryPassThrough (c : Char) : Prop :=
  0x20 < c.toNat ∧ c.toNat < 0x7F ∧
    c.toNat ∉ ([0x22, 0x23, 0x3C, 0x3E, 0x60] : List Nat)

instance (c : Char) : Decidable (generalPassThrough c) := by
  unfold generalPassThrough
  infer_instance

instance (c : Char) : Decidable (queryPassThrough c) := by
  unfold queryPassThrough
  infer_instance

theorem utf8PercentEncode_three_le (c : Char) : 3 ≤ (utf8PercentEncode c).length := by
  simp only [utf8PercentEncode, utf8Bytes]
  split
  · simp [percentByte]
  · split
    · simp [percentByte]
    · split <;> simp [percentByte]

theorem utf8PercentEncode_ne_single (c : Char) : utf8PercentEncode c ≠ [c] := by
  intro h
  have := utf8PercentEncode_three_le c
  rw [h] at this
  simp at this

theorem unreserved_general {c : Char} (h : isUriUnreserved c = true) :
    generalPassThrough c := by
  simp [isUriUnreserved, isAsciiAlpha, isAsciiDigit] at h
  simp [generalPassThrough]
  omega

theorem unreserved_query {c : Char} (h : isUriUnreserved c = true) :
    queryPassThrough c := by
  simp [isUriUnreserved, isAsciiAlpha, isAsciiDigit] at h
  simp [queryPassThrough]
  omega

theorem encodeURIComponent_not_general {c : Char} (h : ¬ generalPassThrough c) :
    encodeURIComponent c = utf8PercentEncode c := by
  unfold encodeURIComponent
  rw [if_neg]
  intro habs
  exact h (unreserved_general habs)

theorem encodeURIComponent_not_query {c : Char} (h : ¬ queryPassThrough c) :
    encodeURIComponent c = utf8PercentEncode c := by
  unfold encodeURIComponent
  rw [if_neg]
  intro habs
  exact h (unreserved_query habs)

theorem general_cond_eq (c : Char) :
    (0x20 < c.toNat && c.toNat < 0x7F &&
      !([0x22, 0x23, 0x3C, 0x3E, 0x3F, 0x60].contains c.toNat)) = true ↔
    generalPassThrough c := by
  simp [generalPassThrough]
  omega

theorem query_cond_eq (c : Char) :
    (0x20 < c.toNat && c.toNat < 0x7F &&
      !([0x22, 0x23, 0x3C, 0x3E, 0x60].contains c.toNat)) = true ↔
    queryPassThrough c := by
  simp [queryPassThrough]
  omega

theorem percentEscape_spec (c : Char) :
    (percentEscape c = [c] ↔ generalPassThrough c) ∧
    (¬ generalPassThrough c → percentEscape c = utf8PercentEncode c) := by
  by_cases h : generalPassThrough c
  · refine ⟨⟨fun _ => h, fun _ => ?_⟩, fun hn => absurd h hn⟩
    unfold percentEscape
    rw [(general_cond_eq c).mpr h]
    simp
  · have hb : (0x20 < c.toNat && c.toNat < 0x7F &&
        !([0x22, 0x23, 0x3C, 0x3E, 0x3F, 0x60].contains c.toNat)) = false := by
      rw [← Bool.not_eq_true, general_cond_eq]
      exact h
    have he : percentEscape c = utf8PercentEncode c := by
      unfold percentEscape
      rw [hb]
      simpa using encodeURIComponent_not_general h
    refine ⟨⟨fun hc => ?_, fun hc => absurd hc h⟩, fun _ => he⟩
    rw [he] at hc
    exact absurd hc (utf8PercentEncode_ne_single c)

theorem percentEscapeQuery_spec (c : Char) :
    (percentEscapeQuery c = [c] ↔ queryPassThrough c) ∧
    (¬ queryPassThrough c → percentEscapeQuery c = utf8PercentEncode c) := by
  by_cases h : queryPassThrough c
  · refine ⟨⟨fun _ => h, fun _ => ?_⟩, fun hn => absurd h hn⟩
    unfold percentEscapeQuery
    rw [(query_cond_eq c).mpr h]
    simp
  · have hb : (0x20 < c.toNat && c.toNat < 0x7F &&
        !([0x22, 0x23, 0x3C, 0x3E, 0x60].contains c.toNat)) = false := by
      rw [← Bool.not_eq_true, query_cond_eq]
      exact h
    have he : percentEscapeQuery c = utf8PercentEncode c := by
      unfold percentEscapeQuery
      rw [hb]
      simpa using encodeURIComponent_not_query h
    refine ⟨⟨fun hc => ?_, fun hc => absurd hc h⟩, fun _ => he⟩
    rw [he] at hc
    exact absurd hc (utf8PercentEncode_ne_single c)

/-! ## Claim C5 -/

/-- C5: each of `percentEscape` (general set) and `percentEscapeQuery`
    returns a code point unchanged if and only if its scalar value lies
    strictly between 0x20 and 0x7F and it is not in the forbidden set
    (0x22 0x23 0x3C 0x3E 0x3F 0x60 for the general set; without 0x3F for
    the query set, so the question mark passes through), and otherwise
    returns its UTF-8 percent-encoding, one uppercase `%HH` per byte. -/
theorem claim_C5_percent_escape (c : Char) :
    (percentEscape c = [c] ↔ generalPassThrough c) ∧
    (¬ generalPassThrough c → percentEscape c = utf8PercentEncode c) ∧
    (percentEscapeQuery c = [c] ↔ queryPassThrough c) ∧
    (¬ queryPassThrough c → percentEscapeQuery c = utf8PercentEncode c) :=
  ⟨(percentEscape_spec c).1, (percentEscape_spec c).2,
   (percentEscapeQuery_spec c).1, (percentEscapeQuery_spec c).2⟩

/-- C5 witness: at the question mark, the general escaper encodes while
    the query escaper passes it through. -/
theorem claim_C5_percent_escape_witness :
    percentEscape '?' = utf8PercentEncode '?' ∧ percentEscapeQuery '?' = ['?'] :=
  ⟨(claim_C5_percent_escape '?').2.1 (by decide),
   ((claim_C5_percent_escape '?').2.2.1).mpr (by decide)⟩

/-! ## Claim C7: `URLSearchParams.set` -/

/-- The effect claim C7 describes, written as stated: when a pair with
    the given name exists, overwrite the value of the first such pair
    and remove every later pair with that name, keeping the relative
    order of the remaining pairs; otherwise append the new pair. -/
def specSetFirst (name value : List Char) :
    List (List Char × List Char) → List (List Char × List Char)
  | [] => []
  | p :: rest =>
    if p.1 = name then (name, value) :: rest.filter (fun q => q.1 ≠ name)
    else p :: specSetFirst name value rest

/-- The full claimed behaviour of `set`. -/
def specSet (l : List (List Char × List Char)) (name value : List Char) :
    List (List Char × List Char) :=
  if l.any (fun p => p.1 = name) then specSetFirst name value l
  else l ++ [(name, value)]

theorem setPairsLoop_found (name value : List Char) (l : List (List Char × List Char)) :
    setPairsLoop name value l true = l.filter (fun q => q.1 ≠ name) := by
  induction l with
  | nil => rfl
  | cons p rest ih =>
    by_cases hp : p.1 = name
    · simp [setPairsLoop, hp, ih, List.filter]
    · simp [setPairsLoop, hp, ih, List.filter]

theorem setPairsLoop_none (name value : List Char) (l : List (List Char × List Char))
    (h : l.any (fun p => p.1 = name) = false) :
    setPairsLoop name value l false = l := by
  induction l with
  | nil => rfl
  | cons p rest ih =>
    simp at h
    simp [setPairsLoop, h.1, ih (by simpa using h.2)]

theorem setPairsLoop_some (name value : List Char) (l : List (List Char × List Char))
    (h : l.any (fun p => p.1 = name) = true) :
    setPairsLoop name value l false = specSetFirst name value l := by
  induction l with
  | nil => simp at h
  | cons p rest ih =>
    by_cases hp : p.1 = name
    · simp [setPairsLoop, hp, specSetFirst, setPairsLoop_found]
    · simp at h
      rcases h with h | h
      · exact absurd h hp
      · simp [setPairsLoop, hp, specSetFirst, ih (by simpa using h)]

theorem setPairs_eq_specSet (l : List (List Char × List Char)) (name value : List Char) :
    setPairs l name value = specSet l name value := by
  unfold setPairs specSet
  rcases ha : l.any (fun p => p.1 = name) with _ | _
  · simp [setPairsLoop_none name value l ha]
  · simp [setPairsLoop_some name value l ha]

/-- C7: on any container state, `set(n, v)` produces exactly the list
    the claim describes: the first pair named `n` overwritten with `v`
    and all later pairs named `n` removed (order of the rest kept) when
    such a pair exists, and the appended pair otherwise. -/
theorem claim_C7_search_params_set (u : UrlObject) (name value : List Char) :
    (setParams u name value).params = specSet u.params name value := by
  show setPairs u.params name value = specSet u.params name value
  exact setPairs_eq_specSet u.params name value

/-! ## Claim C2: `serializeHost` -/

/-- C2 (code bug): `serializeHost` is the TODO stub `return host`.  For
    an IPv6 host `::1` the value the serializer and the host getters
    concatenate is the object stringification `[object Object]`, not the
    bracketed payload `[::1]` the claim (and the spec) require; the
    declared return type `string` of the source is violated for every
    tagged host. -/
theorem claim_C2_serialize_host_stub :
    serializeHost (Host.ipv6 "::1".data) = Host.ipv6 "::1".data ∧
    hostToJsString (serializeHost (Host.ipv6 "::1".data)) = "[object Object]".data ∧
    specSerializeHost (Host.ipv6 "::1".data) = "[::1]".data ∧
    hostToJsString (serializeHost (Host.ipv6 "::1".data)) ≠
      specSerializeHost (Host.ipv6 "::1".data) := by
  refine ⟨rfl, by decide, by decide, by decide⟩

/-! ## Claim C9: username and password setters -/

/-- C9 (code bug): the username and password setters do store the value
    when the record can have credentials, but verbatim (the source has
    `TODO Handle percent encoding`), not percent-encoded with the
    userinfo set (the set `percentEscape` implements, the one the
    authority state uses for userinfo): a space should become `%20` and
    `#` should become `%23`, yet both are stored unchanged.  The no-op
    half of the claim holds: on a record that cannot have credentials
    nothing changes. -/
theorem claim_C9_credential_setters_raw :
    (usernameSet sampleHttpRecord " ".data).username = " ".data ∧
    percentEscape ' ' = "%20".data ∧
    (usernameSet sampleHttpRecord " ".data).username ≠ " ".data.flatMap percentEscape ∧
    (passwordSet sampleHttpRecord "#".data).password = "#".data ∧
    percentEscape '#' = "%23".data ∧
    (passwordSet sampleHttpRecord "#".data).password ≠ "#".data.flatMap percentEscape ∧
    usernameSet { sampleHttpRecord with host := none } " ".data =
      { sampleHttpRecord with host := none } := by
  refine ⟨by decide, by decide, by decide, by decide, by decide, by decide, by decide⟩

/-! ## Claim C4: query bidirection -/

/-- The relation claim C4 states between a bound container and its URL's
    search attribute. -/
def searchInv (u : UrlObject) : Prop :=
  searchGet u =
    (if serializeUrlEncoded u.params = [] then []
     else '?' :: serializeUrlEncoded u.params)

theorem updateParams_searchInv (u : UrlObject) : searchInv (updateParams u) := by
  unfold searchInv updateParams searchGet
  by_cases h : serializeUrlEncoded u.params = []
  · simp [h]
  · simp [h]

theorem applyParamsOp_searchInv (u : UrlObject) (op : ParamsOp) :
    searchInv (applyParamsOp u op) := by
  cases op with
  | append name value => exact updateParams_searchInv _
  | delete name => exact updateParams_searchInv _
  | set name value => exact updateParams_searchInv _
  | sort => exact updateParams_searchInv _

theorem foldl_applyParamsOp_searchInv (u : UrlObject) (ops : List ParamsOp)
    (h : ops ≠ []) : searchInv (ops.foldl applyParamsOp u) := by
  induction ops generalizing u with
  | nil => exact absurd rfl h
  | cons op rest ih =>
    cases rest with
    | nil => simpa using applyParamsOp_searchInv u op
    | cons op2 rest2 => simpa using ih (applyParamsOp u op) (by simp)

/-- C4: after any nonempty sequence of append/delete/set/sort mutations
    on the bound container, `search` is the empty string when the list
    serializes to the empty string and `?` followed by the serialization
    otherwise; and assigning a nonempty string to `search` replaces the
    container list with the urlencoded parse of the value after removing
    one leading `?`. -/
theorem claim_C4_query_bidirection (u : UrlObject) :
    (∀ ops : List ParamsOp, ops ≠ [] →
      searchGet (ops.foldl applyParamsOp u) =
        (if serializeUrlEncoded (ops.foldl applyParamsOp u).params = [] then []
         else '?' :: serializeUrlEncoded (ops.foldl applyParamsOp u).params)) ∧
    (∀ s : List Char, s ≠ [] →
      (searchSet u s).params =
        parseUrlEncoded (if s.head? = some '?' then s.tail else s)) := by
  constructor
  · intro ops h
    exact foldl_applyParamsOp_searchInv u ops h
  · intro s h
    unfold searchSet
    rw [if_neg h]

/-- C4 witness: one append on a bound container built over the
    `http://h/` record, and one assignment of `?x=1`. -/
theorem claim_C4_query_bidirection_witness :
    searchGet (([ParamsOp.append "a".data "b".data]).foldl applyParamsOp
        { url := sampleHttpRecord, params := [] }) =
      (if serializeUrlEncoded (([ParamsOp.append "a".data "b".data]).foldl applyParamsOp
          { url := sampleHttpRecord, params := [] }).params = [] then []
       else '?' :: serializeUrlEncoded (([ParamsOp.append "a".data "b".data]).foldl
          applyParamsOp { url := sampleHttpRecord, params := [] }).params) ∧
    (searchSet { url := sampleHttpRecord, params := [] } "?x=1".data).params =
      parseUrlEncoded (if "?x=1".data.head? = some '?' then "?x=1".data.tail
        else "?x=1".data) :=
  ⟨(claim_C4_query_bidirection { url := sampleHttpRecord, params := [] }).1
      [ParamsOp.append "a".data "b".data] (by simp),
   (claim_C4_query_bidirection { url := sampleHttpRecord, params := [] }).2
      "?x=1".data (by simp)⟩

/-! ## Claim C6: port state terminator -/

/-- The record carried by a step outcome. -/
def stepResUrl : StepRes → UrlRecord
  | StepRes.next s => s.url
  | StepRes.ret _ u => u

/-- C6: in the port state, when the current position holds a terminator
    (EOF, `/`, `?`, `#`, a backslash under a special scheme, or any
    position at all when a state override is given) and the digit buffer
    is nonempty, the parser fails exactly when the decimal value exceeds
    65535, and otherwise stores the port: null when it equals the
    scheme's default port, the value itself otherwise. -/
theorem claim_C6_port_state (ctx : Ctx) (url : UrlRecord) (buf : List Char)
    (sa sb pt : Bool) (cur : Int)
    (hbuf : buf ≠ [])
    (hterm : getAt ctx.input cur = none ∨ getAt ctx.input cur = some '/' ∨
             getAt ctx.input cur = some '?' ∨ getAt ctx.input cur = some '#' ∨
             (isSpecial url = true ∧ getAt ctx.input cur = some '\\') ∨
             ctx.override.isSome = true)
    (hnd : ∀ ch, getAt ctx.input cur = some ch → isAsciiDigit ch = false) :
    (65535 < parseIntDec buf →
      step ctx ⟨url, ParserState.port, buf, sa, sb, pt, cur⟩ = StepRes.ret false url) ∧
    (parseIntDec buf ≤ 65535 →
      (∀ u, step ctx ⟨url, ParserState.port, buf, sa, sb, pt, cur⟩ ≠ StepRes.ret false u) ∧
      (stepResUrl (step ctx ⟨url, ParserState.port, buf, sa, sb, pt, cur⟩)).port =
        (if defaultPort url.scheme = some (parseIntDec buf) then none
         else some (parseIntDec buf))) := by
  have hdigbranch : (match getAt ctx.input cur with
      | some ch => isAsciiDigit ch
      | none => false) = false := by
    cases hc : getAt ctx.input cur with
    | none => rfl
    | some ch => exact hnd ch hc
  have htermb : ((getAt ctx.input cur = none || getAt ctx.input cur = some '/' ||
      getAt ctx.input cur = some '?' || getAt ctx.input cur = some '#') ||
      (isSpecial url && getAt ctx.input cur = some '\\') || ctx.override.isSome) = true := by
    rcases hterm with h | h | h | h | h | h
    · simp [h]
    · simp [h]
    · simp [h]
    · simp [h]
    · simp [h.1, h.2]
    · simp [h]
  have h2 : (2 : Nat) ^ 16 - 1 = 65535 := by norm_num
  simp only [step, hdigbranch, htermb]
  simp only [Bool.false_eq_true, if_false, if_true, hbuf, ne_eq, not_false_eq_true, ite_true]
  constructor
  · intro hgt
    rw [if_pos (by omega : parseIntDec buf > 2 ^ 16 - 1)]
  · intro hle
    rw [if_neg (by omega : ¬ parseIntDec buf > 2 ^ 16 - 1)]
    by_cases ho : ctx.override.isSome = true
    · simp [ho, stepResUrl]
    · simp [ho, stepResUrl]

/-- C6 witness: buffer `80` under a port state override on the
    `http://h/` record stores null (80 is the default port of http) and
    does not fail. -/
theorem claim_C6_port_state_witness :
    (stepResUrl (step ⟨[], none, some ParserState.port⟩
        ⟨sampleHttpRecord, ParserState.port, "80".data, false, false, false, 0⟩)).port =
      none ∧
    (∀ u, step ⟨[], none, some ParserState.port⟩
        ⟨sampleHttpRecord, ParserState.port, "80".data, false, false, false, 0⟩ ≠
      StepRes.ret false u) := by
  have h := (claim_C6_port_state ⟨[], none, some ParserState.port⟩ sampleHttpRecord
    "80".data false false false 0 (by decide)
    (Or.inr (Or.inr (Or.inr (Or.inr (Or.inr (by decide))))))
    (by intro ch hc; simp [getAt] at hc)).2 (by decide)
  exact ⟨h.2.trans (by decide), h.1⟩

/-! ## Claim C10: termination of the parse loop

The loop measure: states are ranked so that every transition that does
not consume a code point strictly decreases the rank, and every
self-transition consumes a code point.  The only multi-step cursor
rewind (authority to host) strictly decreases the rank as well; the
invariant below keeps the rewound cursor nonnegative. -/

/-- A rank for each state, strictly decreasing along every non-consuming
    transition of the machine. -/
def stateRank : ParserState → Nat
  | ParserState.schemeStart => 20
  | ParserState.scheme => 19
  | ParserState.noScheme => 18
  | ParserState.specialRelativeOrAuthority => 17
  | ParserState.pathOrAuthority => 16
  | ParserState.relative => 15
  | ParserState.relativeSlash => 14
  | ParserState.specialAuthoritySlashes => 13
  | ParserState.specialAuthorityIgnoreSlashes => 12
  | ParserState.authority => 11
  | ParserState.host => 10
  | ParserState.hostname => 10
  | ParserState.port => 9
  | ParserState.file => 8
  | ParserState.fileSlash => 7
  | ParserState.fileHost => 6
  | ParserState.pathStart => 5
  | ParserState.path => 4
  | ParserState.cannotBeABaseURLPath => 3
  | ParserState.query => 2
  | ParserState.fragment => 1

/-- The states that always hold an empty buffer (needed so that the
    authority state is always entered with an empty buffer). -/
def bufferFreeState : ParserState → Bool
  | ParserState.noScheme => true
  | ParserState.specialRelativeOrAuthority => true
  | ParserState.pathOrAuthority => true
  | ParserState.relative => true
  | ParserState.relativeSlash => true
  | ParserState.specialAuthoritySlashes => true
  | ParserState.specialAuthorityIgnoreSlashes => true
  | _ => false

/-- The loop invariant for termination: buffer-free states carry an
    empty buffer, and in the authority state the buffer is no longer
    than the cursor position (each buffered code point was consumed),
    so the authority rewind never moves the cursor below zero. -/
def loopInv (s : MState) : Prop :=
  (bufferFreeState s.state = true → s.buffer = []) ∧
  (s.state = ParserState.authority → (s.buffer.length : Int) ≤ s.cursor)

/-- The termination measure of one loop configuration. -/
def stepMeasure (ctx : Ctx) (s : MState) : Nat :=
  stateRank s.state * (ctx.input.length + 2) +
    ((ctx.input.length : Int) + 1 - s.cursor).toNat

theorem measure_lt_rank {L : Nat} {c c' : Int} {r r' : Nat}
    (hr : r' < r) (hc' : 0 ≤ c') :
    r' * (L + 2) + ((L : Int) + 1 - c').toNat <
      r * (L + 2) + ((L : Int) + 1 - c).toNat := by
  have h1 : ((L : Int) + 1 - c').toNat ≤ L + 1 := by omega
  have h2 : (r' + 1) * (L + 2) ≤ r * (L + 2) := Nat.mul_le_mul_right _ hr
  have h3 : (r' + 1) * (L + 2) = r' * (L + 2) + (L + 2) := by ring
  omega

theorem measure_lt_consume {L : Nat} {c : Int} {r : Nat}
    (hcL : c ≤ L) :
    r * (L + 2) + ((L : Int) + 1 - (c + 1)).toNat <
      r * (L + 2) + ((L : Int) + 1 - c).toNat := by
  omega

/-- The loop condition bounds the cursor: it is nonnegative and at most
    the input length. -/
theorem loopCond_bounds {ctx : Ctx} {s : MState} (h : loopCond ctx s = true) :
    0 ≤ s.cursor ∧ s.cursor ≤ (ctx.input.length : Int) := by
  unfold loopCond at h
  rcases Bool.or_eq_true_iff.mp h with h | h
  · have h0 : s.cursor = 0 := by simpa using h
    simp [h0]
  · unfold getAt at h
    split at h
    · rename_i h0
      have hlt : (s.cursor - 1).toNat < ctx.input.length := by
        by_contra hn
        rw [List.getElem?_eq_none (by omega)] at h
        simp at h
      omega
    · simp at h

set_option maxHeartbeats 1600000 in
/-- Progress of one loop iteration: whenever the loop condition holds
    and the invariant holds, a continuing step preserves the invariant
    and strictly decreases the measure. -/
theorem step_decrease (ctx : Ctx) (s : MState) (hinv : loopInv s)
    (hcond : loopCond ctx s = true) (s' : MState)
    (hstep : step ctx s = StepRes.next s') :
    loopInv s' ∧ stepMeasure ctx s' < stepMeasure ctx s := by
  obtain ⟨hc0, hcL⟩ := loopCond_bounds hcond
  obtain ⟨url, state, buffer, sa, sb, pt, cursor⟩ := s
  obtain ⟨hbf, hauth⟩ := hinv
  simp only at hbf hauth hc0 hcL
  cases state
  case authority =>
    have hA := hauth rfl
    simp only at hA
    simp only [step] at hstep
    repeat' split at hstep
    all_goals first
      | exact StepRes.noConfusion hstep
      | (cases hstep
         unfold loopInv stepMeasure stateRank
         dsimp only
         refine ⟨⟨fun hb => ?_, fun ha => ?_⟩, ?_⟩
         · first
           | exact absurd hb (by decide)
           | rfl
           | exact hbf rfl
         · first
           | exact absurd ha (by decide)
           | (simp only [List.length_nil, List.length_append, List.length_cons,
                Nat.cast_zero]
              push_cast
              omega)
         · first
           | exact measure_lt_consume (by omega)
           | exact measure_lt_rank (by norm_num) (by omega))
  case noScheme | specialRelativeOrAuthority | pathOrAuthority | relative
      | relativeSlash | specialAuthoritySlashes | specialAuthorityIgnoreSlashes =>
    all_goals have hB := hbf rfl
    all_goals simp only at hB
    all_goals subst hB
    all_goals simp only [step] at hstep
    all_goals repeat' split at hstep
    all_goals first
      | exact StepRes.noConfusion hstep
      | (cases hstep
         unfold loopInv stepMeasure stateRank
         dsimp only
         refine ⟨⟨fun hb => ?_, fun ha => ?_⟩, ?_⟩
         · first
           | exact absurd hb (by decide)
           | rfl
           | exact hbf rfl
         · first
           | exact absurd ha (by decide)
           | (simp only [List.length_nil, List.length_append, List.length_cons,
                Nat.cast_zero]
              push_cast
              omega)
         · first
           | exact measure_lt_consume (by omega)
           | exact measure_lt_rank (by norm_num) (by omega))
  all_goals simp only [step] at hstep
  all_goals repeat' split at hstep
  all_goals first
    | exact StepRes.noConfusion hstep
    | (cases hstep
       unfold loopInv stepMeasure stateRank
       dsimp only
       refine ⟨⟨fun hb => ?_, fun ha => ?_⟩, ?_⟩
       · first
         | exact absurd hb (by decide)
         | rfl
         | exact hbf rfl
       · first
         | exact absurd ha (by decide)
         | (simp only [List.length_nil, List.length_append, List.length_cons,
              Nat.cast_zero]
            push_cast
            omega)
       · first
         | exact measure_lt_consume (by omega)
         | exact measure_lt_rank (by norm_num) (by omega))

/-- Fuel beyond the measure always suffices: the loop reaches a return
    or the loop exit before running out. -/
theorem parseRun_isSome (ctx : Ctx) :
    ∀ fuel (s : MState), loopInv s → stepMeasure ctx s < fuel →
      (parseRun ctx fuel s).isSome = true := by
  intro fuel
  induction fuel with
  | zero => intro s _ h; exact absurd h (Nat.not_lt_zero _)
  | succ f ih =>
    intro s hinv hm
    unfold parseRun
    by_cases hcond : loopCond ctx s = true
    · rw [if_pos hcond]
      cases hst : step ctx s with
      | ret b u => simp
      | next s' =>
        obtain ⟨hinv', hm'⟩ := step_decrease ctx s hinv hcond s' hst
        exact ih s' hinv' (by omega)
    · rw [if_neg hcond]
      simp

/-- Every state has rank at most 20. -/
theorem stateRank_le (st : ParserState) : stateRank st ≤ 20 := by
  cases st <;> simp [stateRank]

/-- The initial configuration satisfies the loop invariant. -/
theorem loopInv_init (url : UrlRecord) (ov : Option ParserState) :
    loopInv (initState url ov) :=
  ⟨fun _ => rfl, fun _ => by simp [initState]⟩

/-- The initial measure is below the fuel `parse` supplies. -/
theorem stepMeasure_init_lt (ctx : Ctx) (url : UrlRecord) (ov : Option ParserState) :
    stepMeasure ctx (initState url ov) < fuelFor ctx.input := by
  unfold stepMeasure initState fuelFor
  have hr : stateRank (ov.getD ParserState.schemeStart) ≤ 20 := stateRank_le _
  have hmul : stateRank (ov.getD ParserState.schemeStart) * (ctx.input.length + 2) ≤
      20 * (ctx.input.length + 2) := Nat.mul_le_mul_right _ hr
  dsimp only
  omega

/-- Totality of `parse`: the supplied fuel always suffices. -/
theorem parse_isSome (input : List Char) (base : Option UrlRecord)
    (urlArg : Option UrlRecord) (override : Option ParserState) :
    (parse input base urlArg override).isSome = true := by
  cases urlArg with
  | none =>
    unfold parse
    exact parseRun_isSome _ _ _ (loopInv_init _ _) (stepMeasure_init_lt _ _ _)
  | some u =>
    unfold parse
    exact parseRun_isSome _ _ _ (loopInv_init _ _) (stepMeasure_init_lt _ _ _)

/-- C10: for every input string, base, optional in-out record and
    optional state override, the basic URL parser terminates: the loop
    returns within the statically supplied fuel, despite the transitions
    that hold the cursor in place, reset it to zero, or rewind it by the
    buffer length plus one. -/
theorem claim_C10_termination (input : List Char) (base : Option UrlRecord)
    (urlArg : Option UrlRecord) (override : Option ParserState) :
    (parse input base urlArg override).isSome = true :=
  parse_isSome input base urlArg override

/-! ## A generic invariant rule for the parse loop -/

/-- Invariant reasoning for `parseRun`: if `P` holds initially, is
    preserved by continuing steps, and implies the result predicate `R`
    at every return (loop exit included), then any result of the loop
    satisfies `R`. -/
theorem parseRun_result (ctx : Ctx) (P : MState → Prop) (R : Bool → UrlRecord → Prop)
    (hexit : ∀ s, P s → loopCond ctx s = false → R true s.url)
    (hret : ∀ s b u, P s → loopCond ctx s = true →
      step ctx s = StepRes.ret b u → R b u)
    (hnext : ∀ s s', P s → loopCond ctx s = true →
      step ctx s = StepRes.next s' → P s') :
    ∀ fuel (s : MState) (b : Bool) (u : UrlRecord), P s →
      parseRun ctx fuel s = some (b, u) → R b u := by
  intro fuel
  induction fuel with
  | zero => intro s b u _ h; simp [parseRun] at h
  | succ f ih =>
    intro s b u hP h
    unfold parseRun at h
    by_cases hcond : loopCond ctx s = true
    · rw [if_pos hcond] at h
      cases hst : step ctx s with
      | ret b2 u2 =>
        rw [hst] at h
        obtain ⟨rfl, rfl⟩ : b2 = b ∧ u2 = u := by simpa using h
        exact hret s _ _ hP hcond hst
      | next s' =>
        rw [hst] at h
        exact ih s' b u (hnext s s' hP hcond hst) h
    · rw [if_neg hcond] at h
      obtain ⟨rfl, rfl⟩ : true = b ∧ s.url = u := by simpa using h
      exact hexit s hP (by simpa using hcond)

/-- A defined position means the index is inside the string. -/
theorem getAt_some_bounds {l : List Char} {i : Int} {ch : Char}
    (h : getAt l i = some ch) : 0 ≤ i ∧ i < (l.length : Int) := by
  unfold getAt at h
  split at h
  · rename_i h0
    refine ⟨h0, ?_⟩
    have hlt : i.toNat < l.length := by
      by_contra hn
      rw [List.getElem?_eq_none (by omega)] at h
      simp at h
    omega
  · simp at h

/-! ## Frame properties of state-override runs

One lemma per override entry point characterizes a single step: what a
return can look like and what a continuing step preserves.  These feed
both the setter no-partial-mutation claim (C3) and the host-null
invariant (C8). -/

/-- All fields except the host agree, and the host is either untouched
    or set to an actual host value (never nulled). -/
def hostFrame (orig u : UrlRecord) : Prop :=
  u.scheme = orig.scheme ∧ u.username = orig.username ∧ u.password = orig.password ∧
  u.port = orig.port ∧ u.path = orig.path ∧ u.query = orig.query ∧
  u.fragment = orig.fragment ∧ u.cannotBeABaseURL = orig.cannotBeABaseURL ∧
  (u.host = orig.host ∨ ∃ h, u.host = some h)

/-- All fields except the port agree. -/
def portFrame (orig u : UrlRecord) : Prop :=
  u.scheme = orig.scheme ∧ u.username = orig.username ∧ u.password = orig.password ∧
  u.host = orig.host ∧ u.path = orig.path ∧ u.query = orig.query ∧
  u.fragment = orig.fragment ∧ u.cannotBeABaseURL = orig.cannotBeABaseURL

/-- All fields except the path agree, and the host is either untouched
    or set to the empty host (the Windows drive letter rewrite). -/
def pathFrame (orig u : UrlRecord) : Prop :=
  u.scheme = orig.scheme ∧ u.username = orig.username ∧ u.password = orig.password ∧
  u.port = orig.port ∧ u.query = orig.query ∧
  u.fragment = orig.fragment ∧ u.cannotBeABaseURL = orig.cannotBeABaseURL ∧
  (u.host = orig.host ∨ u.host = some Host.emptyHost)

/-- All fields except the query agree. -/
def queryFrame (orig u : UrlRecord) : Prop :=
  u.scheme = orig.scheme ∧ u.username = orig.username ∧ u.password = orig.password ∧
  u.host = orig.host ∧ u.port = orig.port ∧ u.path = orig.path ∧
  u.fragment = orig.fragment ∧ u.cannotBeABaseURL = orig.cannotBeABaseURL

/-- All fields except the fragment agree. -/
def fragmentFrame (orig u : UrlRecord) : Prop :=
  u.scheme = orig.scheme ∧ u.username = orig.username ∧ u.password = orig.password ∧
  u.host = orig.host ∧ u.port = orig.port ∧ u.path = orig.path ∧
  u.query = orig.query ∧ u.cannotBeABaseURL = orig.cannotBeABaseURL

set_option maxHeartbeats 1600000 in
/-- One step under a scheme-start override (protocol setter): a failure
    return leaves the record unchanged, any return only commits the
    scheme and possibly clears the port, and a continuing step keeps the
    record and stays in the two scheme states. -/
theorem step_scheme_char (inp : List Char) (base : Option UrlRecord) (ov : ParserState)
    (s : MState)
    (hs : s.state = ParserState.schemeStart ∨ s.state = ParserState.scheme) :
    (∀ b u, step ⟨inp, base, some ov⟩ s = StepRes.ret b u →
      (b = false → u = s.url) ∧
      (u = s.url ∨ (u.host = s.url.host ∧ u.username = s.url.username ∧
        u.password = s.url.password ∧ u.path = s.url.path ∧ u.query = s.url.query ∧
        u.fragment = s.url.fragment ∧ u.cannotBeABaseURL = s.url.cannotBeABaseURL ∧
        (u.port = s.url.port ∨ u.port = none)))) ∧
    (∀ s', step ⟨inp, base, some ov⟩ s = StepRes.next s' →
      s'.url = s.url ∧
      (s'.state = ParserState.schemeStart ∨ s'.state = ParserState.scheme)) := by
  obtain ⟨url, state, buffer, sa, sb, pt, cursor⟩ := s
  simp only at hs ⊢
  constructor
  · intro b u hstep
    rcases hs with hs | hs
    all_goals subst hs
    all_goals simp only [step, Option.isNone_some, Option.isSome_some, Bool.false_and,
      Bool.true_and, Bool.false_eq_true, if_false, if_true] at hstep
    all_goals repeat' split at hstep
    all_goals first
      | exact StepRes.noConfusion hstep
      | (cases hstep
         refine ⟨by simp, ?_⟩
         first
           | exact Or.inl rfl
           | exact Or.inr ⟨rfl, rfl, rfl, rfl, rfl, rfl, rfl, Or.inl rfl⟩
           | exact Or.inr ⟨rfl, rfl, rfl, rfl, rfl, rfl, rfl, Or.inr rfl⟩)
      | simp_all
  · intro s' hstep
    rcases hs with hs | hs
    all_goals subst hs
    all_goals simp only [step, Option.isNone_some, Option.isSome_some, Bool.false_and,
      Bool.true_and, Bool.false_eq_true, if_false, if_true] at hstep
    all_goals repeat' split at hstep
    all_goals first
      | exact StepRes.noConfusion hstep
      | (cases hstep
         exact ⟨rfl, by simp⟩)
      | simp_all

set_option maxHeartbeats 1600000 in
/-- One step in the port state under any state override (port setter,
    and the port phase of the host setter): a failure return leaves the
    record unchanged, any return touches only the port, and a
    continuing step keeps the record and stays in the port state. -/
theorem step_port_char (inp : List Char) (base : Option UrlRecord) (ov : ParserState)
    (s : MState) (hs : s.state = ParserState.port) :
    (∀ b u, step ⟨inp, base, some ov⟩ s = StepRes.ret b u →
      (b = false → u = s.url) ∧ portFrame s.url u) ∧
    (∀ s', step ⟨inp, base, some ov⟩ s = StepRes.next s' →
      s'.url = s.url ∧ s'.state = ParserState.port) := by
  obtain ⟨url, state, buffer, sa, sb, pt, cursor⟩ := s
  simp only at hs ⊢
  subst hs
  constructor
  · intro b u hstep
    simp only [step, Option.isNone_some, Option.isSome_some, Bool.or_true,
      Bool.false_eq_true, if_false, if_true] at hstep
    repeat' split at hstep
    all_goals first
      | exact StepRes.noConfusion hstep
      | (cases hstep
         exact ⟨by simp, by simp [portFrame]⟩)
      | simp_all
  · intro s' hstep
    simp only [step, Option.isNone_some, Option.isSome_some, Bool.or_true,
      Bool.false_eq_true, if_false, if_true] at hstep
    repeat' split at hstep
    all_goals first
      | exact StepRes.noConfusion hstep
      | (cases hstep
         exact ⟨rfl, rfl⟩)
      | simp_all

set_option maxHeartbeats 1600000 in
/-- One step under a hostname override, in the hostname or file host
    state: a failure return leaves the record unchanged, any return
    only rewrites the host (never to null), and a continuing step keeps
    the record within these two states. -/
theorem step_hostname_char (inp : List Char) (base : Option UrlRecord)
    (s : MState)
    (hs : s.state = ParserState.hostname ∨ s.state = ParserState.fileHost) :
    (∀ b u, step ⟨inp, base, some ParserState.hostname⟩ s = StepRes.ret b u →
      (b = false → u = s.url) ∧ hostFrame s.url u) ∧
    (∀ s', step ⟨inp, base, some ParserState.hostname⟩ s = StepRes.next s' →
      s'.url = s.url ∧
      (s'.state = ParserState.hostname ∨ s'.state = ParserState.fileHost)) := by
  obtain ⟨url, state, buffer, sa, sb, pt, cursor⟩ := s
  simp only at hs ⊢
  constructor
  · intro b u hstep
    rcases hs with hs | hs
    all_goals subst hs
    all_goals simp only [step, Option.isNone_some, Option.isSome_some, Bool.false_and,
      Bool.true_and, Bool.false_eq_true, if_false, if_true] at hstep
    all_goals repeat' split at hstep
    all_goals first
      | exact StepRes.noConfusion hstep
      | (cases hstep
         exact ⟨by simp, by simp [hostFrame]⟩)
      | simp_all
  · intro s' hstep
    rcases hs with hs | hs
    all_goals subst hs
    all_goals simp only [step, Option.isNone_some, Option.isSome_some, Bool.false_and,
      Bool.true_and, Bool.false_eq_true, if_false, if_true] at hstep
    all_goals repeat' split at hstep
    all_goals first
      | exact StepRes.noConfusion hstep
      | (cases hstep
         exact ⟨rfl, by simp⟩)
      | simp_all

set_option maxHeartbeats 1600000 in
/-- One step under a host override, in the host or file host state: a
    failure return leaves the record unchanged, any return only
    rewrites the host (never to null), and a continuing step either
    stays in these states with the record unchanged or enters the port
    state having committed an actual host. -/
theorem step_host_char (inp : List Char) (base : Option UrlRecord)
    (s : MState)
    (hs : s.state = ParserState.host ∨ s.state = ParserState.fileHost) :
    (∀ b u, step ⟨inp, base, some ParserState.host⟩ s = StepRes.ret b u →
      (b = false → u = s.url) ∧ hostFrame s.url u) ∧
    (∀ s', step ⟨inp, base, some ParserState.host⟩ s = StepRes.next s' →
      (s'.url = s.url ∧
        (s'.state = ParserState.host ∨ s'.state = ParserState.fileHost)) ∨
      (s'.state = ParserState.port ∧ hostFrame s.url s'.url ∧
        ∃ h, s'.url.host = some h)) := by
  obtain ⟨url, state, buffer, sa, sb, pt, cursor⟩ := s
  simp only at hs ⊢
  constructor
  · intro b u hstep
    rcases hs with hs | hs
    all_goals subst hs
    all_goals simp only [step, Option.isNone_some, Option.isSome_some, Bool.false_and,
      Bool.true_and, Bool.false_eq_true, if_false, if_true] at hstep
    all_goals repeat' split at hstep
    all_goals first
      | exact StepRes.noConfusion hstep
      | (cases hstep
         exact ⟨by simp, by simp [hostFrame]⟩)
      | simp_all
  · intro s' hstep
    rcases hs with hs | hs
    all_goals subst hs
    all_goals simp only [step, Option.isNone_some, Option.isSome_some, Bool.false_and,
      Bool.true_and, Bool.false_eq_true, if_false, if_true] at hstep
    all_goals repeat' split at hstep
    all_goals first
      | exact StepRes.noConfusion hstep
      | (cases hstep
         exact Or.inl ⟨rfl, by simp⟩)
      | (cases hstep
         exact Or.inr ⟨rfl, by simp [hostFrame], by simp⟩)
      | simp_all

/-- `shortenPath` touches only the path. -/
theorem shortenPath_frame (u : UrlRecord) : pathFrame u (shortenPath u) := by
  unfold shortenPath pathFrame
  repeat' split
  all_goals simp

/-- `pathFrame` composes. -/
theorem pathFrame_trans {a b c : UrlRecord} (h1 : pathFrame a b) (h2 : pathFrame b c) :
    pathFrame a c := by
  unfold pathFrame at h1 h2 ⊢
  obtain ⟨s1, u1, p1, o1, q1, f1, c1, hh1⟩ := h1
  obtain ⟨s2, u2, p2, o2, q2, f2, c2, hh2⟩ := h2
  refine ⟨s2.trans s1, u2.trans u1, p2.trans p1, o2.trans o1, q2.trans q1,
    f2.trans f1, c2.trans c1, ?_⟩
  rcases hh2 with hh2 | hh2
  · rw [hh2]
    exact hh1
  · exact Or.inr hh2

/-- The path segment commit touches only the path, except that it may
    set the host to the empty host. -/
theorem pathSegmentUrl_frame (url : UrlRecord) (buf : List Char) (sl : Bool) :
    pathFrame url (pathSegmentUrl url buf sl) := by
  unfold pathFrame pathSegmentUrl shortenPath
  repeat' split
  all_goals simp

/-- The path-state terminator mutation touches only the path, except
    that it may set the host to the empty host. -/
theorem pathTerminatorUrl_frame (url : UrlRecord) (buf : List Char) (c : Option Char) :
    pathFrame url (pathTerminatorUrl url buf c) := by
  unfold pathTerminatorUrl
  dsimp only
  split
  · exact pathFrame_trans (pathSegmentUrl_frame url buf _)
      ⟨rfl, rfl, rfl, rfl, rfl, rfl, rfl, Or.inl rfl⟩
  · exact pathSegmentUrl_frame url buf _

set_option maxHeartbeats 1600000 in
/-- One step under a path start override (pathname setter), in the path
    start or path state: the machine never returns (no failure is
    possible), and a continuing step stays in these states, changing
    only the path apart from the possible empty-host rewrite. -/
theorem step_pathStart_char (inp : List Char) (base : Option UrlRecord)
    (s : MState)
    (hs : s.state = ParserState.pathStart ∨ s.state = ParserState.path) :
    (∀ b u, step ⟨inp, base, some ParserState.pathStart⟩ s = StepRes.ret b u → False) ∧
    (∀ s', step ⟨inp, base, some ParserState.pathStart⟩ s = StepRes.next s' →
      (s'.state = ParserState.pathStart ∨ s'.state = ParserState.path) ∧
      pathFrame s.url s'.url) := by
  obtain ⟨url, state, buffer, sa, sb, pt, cursor⟩ := s
  simp only at hs ⊢
  constructor
  · intro b u hstep
    rcases hs with hs | hs
    all_goals subst hs
    all_goals simp only [step, Option.isNone_some, Option.isSome_some, Bool.false_and,
      Bool.true_and, Bool.or_false, Bool.false_eq_true, if_false, if_true] at hstep
    all_goals repeat' split at hstep
    all_goals first
      | exact StepRes.noConfusion hstep
      | simp_all
  · intro s' hstep
    rcases hs with hs | hs
    all_goals subst hs
    all_goals simp only [step, Option.isNone_some, Option.isSome_some, Bool.false_and,
      Bool.true_and, Bool.or_false, Bool.false_eq_true, if_false, if_true] at hstep
    all_goals repeat' split at hstep
    all_goals first
      | exact StepRes.noConfusion hstep
      | (cases hstep
         refine ⟨?_, ?_⟩
         · simp
         · simp [pathFrame])
      | (cases hstep
         refine ⟨?_, ?_⟩
         · simp
         · exact pathTerminatorUrl_frame _ _ _)
      | (exfalso
         clear hstep
         simp_all)
      | simp_all

set_option maxHeartbeats 1600000 in
/-- One step under a query override (search setter), in the query
    state: the machine never returns, and a continuing step stays in
    the query state changing only the query. -/
theorem step_query_char (inp : List Char) (base : Option UrlRecord)
    (s : MState) (hs : s.state = ParserState.query) :
    (∀ b u, step ⟨inp, base, some ParserState.query⟩ s = StepRes.ret b u → False) ∧
    (∀ s', step ⟨inp, base, some ParserState.query⟩ s = StepRes.next s' →
      s'.state = ParserState.query ∧ queryFrame s.url s'.url) := by
  obtain ⟨url, state, buffer, sa, sb, pt, cursor⟩ := s
  simp only at hs ⊢
  subst hs
  constructor
  · intro b u hstep
    simp only [step, Option.isNone_some, Option.isSome_some, Bool.false_and,
      Bool.true_and, Bool.or_false, Bool.false_eq_true, if_false, if_true] at hstep
    repeat' split at hstep
    all_goals first
      | exact StepRes.noConfusion hstep
      | simp_all
  · intro s' hstep
    simp only [step, Option.isNone_some, Option.isSome_some, Bool.false_and,
      Bool.true_and, Bool.or_false, Bool.false_eq_true, if_false, if_true] at hstep
    repeat' split at hstep
    all_goals first
      | exact StepRes.noConfusion hstep
      | (cases hstep
         exact ⟨rfl, by simp [queryFrame]⟩)
      | simp_all

set_option maxHeartbeats 1600000 in
/-- One step under a fragment override (hash setter), in the fragment
    state: the machine never returns, and a continuing step stays in
    the fragment state changing only the fragment. -/
theorem step_fragment_char (inp : List Char) (base : Option UrlRecord)
    (s : MState) (hs : s.state = ParserState.fragment) :
    (∀ b u, step ⟨inp, base, some ParserState.fragment⟩ s = StepRes.ret b u → False) ∧
    (∀ s', step ⟨inp, base, some ParserState.fragment⟩ s = StepRes.next s' →
      s'.state = ParserState.fragment ∧ fragmentFrame s.url s'.url) := by
  obtain ⟨url, state, buffer, sa, sb, pt, cursor⟩ := s
  simp only at hs ⊢
  subst hs
  constructor
  · intro b u hstep
    simp only [step] at hstep
    repeat' split at hstep
    all_goals first
      | exact StepRes.noConfusion hstep
      | simp_all
  · intro s' hstep
    simp only [step] at hstep
    repeat' split at hstep
    all_goals first
      | exact StepRes.noConfusion hstep
      | (cases hstep
         exact ⟨rfl, by simp [fragmentFrame]⟩)
      | simp_all

/-! ## Frame properties of whole state-override parses -/

/-- What a scheme-start-override parse can do to the record: everything
    but the scheme is untouched, except that the port may be cleared. -/
def schemeFrame (orig u : UrlRecord) : Prop :=
  u.host = orig.host ∧ u.username = orig.username ∧ u.password = orig.password ∧
  u.path = orig.path ∧ u.query = orig.query ∧ u.fragment = orig.fragment ∧
  u.cannotBeABaseURL = orig.cannotBeABaseURL ∧ (u.port = orig.port ∨ u.port = none)

/-- What a host-override parse can do: everything but host and port
    untouched, and either host and port are both untouched or the host
    was committed to an actual value. -/
def hostSetterFrame (orig u : UrlRecord) : Prop :=
  u.scheme = orig.scheme ∧ u.username = orig.username ∧ u.password = orig.password ∧
  u.path = orig.path ∧ u.query = orig.query ∧ u.fragment = orig.fragment ∧
  u.cannotBeABaseURL = orig.cannotBeABaseURL ∧
  ((u.host = orig.host ∧ u.port = orig.port) ∨ ∃ h, u.host = some h)

theorem queryFrame_trans {a b c : UrlRecord} (h1 : queryFrame a b)
    (h2 : queryFrame b c) : queryFrame a c := by
  unfold queryFrame at h1 h2 ⊢
  obtain ⟨x1, x2, x3, x4, x5, x6, x7, x8⟩ := h1
  obtain ⟨y1, y2, y3, y4, y5, y6, y7, y8⟩ := h2
  exact ⟨y1.trans x1, y2.trans x2, y3.trans x3, y4.trans x4, y5.trans x5,
    y6.trans x6, y7.trans x7, y8.trans x8⟩

theorem fragmentFrame_trans {a b c : UrlRecord} (h1 : fragmentFrame a b)
    (h2 : fragmentFrame b c) : fragmentFrame a c := by
  unfold fragmentFrame at h1 h2 ⊢
  obtain ⟨x1, x2, x3, x4, x5, x6, x7, x8⟩ := h1
  obtain ⟨y1, y2, y3, y4, y5, y6, y7, y8⟩ := h2
  exact ⟨y1.trans x1, y2.trans x2, y3.trans x3, y4.trans x4, y5.trans x5,
    y6.trans x6, y7.trans x7, y8.trans x8⟩

/-- The protocol setter's parser call: on failure the record is exactly
    unchanged, and in all cases only the scheme (and possibly a cleared
    port) changes. -/
theorem runOverride_schemeStart_spec (input : List Char) (rec : UrlRecord) :
    ((runOverride input rec ParserState.schemeStart).1 = false →
      (runOverride input rec ParserState.schemeStart).2 = rec) ∧
    schemeFrame rec (runOverride input rec ParserState.schemeStart).2 := by
  have hR : ∀ b u, parse input none (some rec) (some ParserState.schemeStart) = some (b, u) →
      ((b = false → u = rec) ∧ schemeFrame rec u) := by
    intro b u hp
    unfold parse at hp
    dsimp only at hp
    refine parseRun_result _
      (fun s => (s.state = ParserState.schemeStart ∨ s.state = ParserState.scheme) ∧
        s.url = rec)
      (fun b u => (b = false → u = rec) ∧ schemeFrame rec u)
      ?_ ?_ ?_ _ _ _ _ ⟨by simp [initState], rfl⟩ hp
    · intro s hP _
      exact ⟨by simp, hP.2 ▸ ⟨rfl, rfl, rfl, rfl, rfl, rfl, rfl, Or.inl rfl⟩⟩
    · intro s b2 u2 hP _ hstep
      obtain ⟨hf, hor⟩ := (step_scheme_char _ _ _ s hP.1).1 b2 u2 hstep
      refine ⟨fun hb => (hf hb).trans hP.2, ?_⟩
      rcases hor with hor | hor
      · rw [hor, hP.2]
        exact ⟨rfl, rfl, rfl, rfl, rfl, rfl, rfl, Or.inl rfl⟩
      · rw [← hP.2]
        exact ⟨hor.1, hor.2.1, hor.2.2.1, hor.2.2.2.1, hor.2.2.2.2.1,
          hor.2.2.2.2.2.1, hor.2.2.2.2.2.2.1, hor.2.2.2.2.2.2.2⟩
    · intro s s' hP _ hstep
      obtain ⟨hu, hst⟩ := (step_scheme_char _ _ _ s hP.1).2 s' hstep
      exact ⟨hst, hu.trans hP.2⟩
  unfold runOverride
  cases hp : parse input none (some rec) (some ParserState.schemeStart) with
  | none =>
    have := parse_isSome input none (some rec) (some ParserState.schemeStart)
    rw [hp] at this
    simp at this
  | some r =>
    obtain ⟨b, u⟩ := r
    exact hR b u hp

/-- The hostname setter's parser call: on failure the record is exactly
    unchanged, and in all cases only the host changes, never to null. -/
theorem runOverride_hostname_spec (input : List Char) (rec : UrlRecord) :
    ((runOverride input rec ParserState.hostname).1 = false →
      (runOverride input rec ParserState.hostname).2 = rec) ∧
    hostFrame rec (runOverride input rec ParserState.hostname).2 := by
  have hR : ∀ b u, parse input none (some rec) (some ParserState.hostname) = some (b, u) →
      ((b = false → u = rec) ∧ hostFrame rec u) := by
    intro b u hp
    unfold parse at hp
    dsimp only at hp
    refine parseRun_result _
      (fun s => (s.state = ParserState.hostname ∨ s.state = ParserState.fileHost) ∧
        s.url = rec)
      (fun b u => (b = false → u = rec) ∧ hostFrame rec u)
      ?_ ?_ ?_ _ _ _ _ ⟨by simp [initState], rfl⟩ hp
    · intro s hP _
      exact ⟨by simp, hP.2 ▸ ⟨rfl, rfl, rfl, rfl, rfl, rfl, rfl, rfl, Or.inl rfl⟩⟩
    · intro s b2 u2 hP _ hstep
      obtain ⟨hf, hfr⟩ := (step_hostname_char _ _ s hP.1).1 b2 u2 hstep
      exact ⟨fun hb => (hf hb).trans hP.2, hP.2 ▸ hfr⟩
    · intro s s' hP _ hstep
      obtain ⟨hu, hst⟩ := (step_hostname_char _ _ s hP.1).2 s' hstep
      exact ⟨hst, hu.trans hP.2⟩
  unfold runOverride
  cases hp : parse input none (some rec) (some ParserState.hostname) with
  | none =>
    have := parse_isSome input none (some rec) (some ParserState.hostname)
    rw [hp] at this
    simp at this
  | some r =>
    obtain ⟨b, u⟩ := r
    exact hR b u hp

/-- The port setter's parser call: on failure the record is exactly
    unchanged, and in all cases only the port changes. -/
theorem runOverride_port_spec (input : List Char) (rec : UrlRecord) :
    ((runOverride input rec ParserState.port).1 = false →
      (runOverride input rec ParserState.port).2 = rec) ∧
    portFrame rec (runOverride input rec ParserState.port).2 := by
  have hR : ∀ b u, parse input none (some rec) (some ParserState.port) = some (b, u) →
      ((b = false → u = rec) ∧ portFrame rec u) := by
    intro b u hp
    unfold parse at hp
    dsimp only at hp
    refine parseRun_result _
      (fun s => s.state = ParserState.port ∧ s.url = rec)
      (fun b u => (b = false → u = rec) ∧ portFrame rec u)
      ?_ ?_ ?_ _ _ _ _ ⟨by simp [initState], rfl⟩ hp
    · intro s hP _
      exact ⟨by simp, hP.2 ▸ ⟨rfl, rfl, rfl, rfl, rfl, rfl, rfl, rfl⟩⟩
    · intro s b2 u2 hP _ hstep
      obtain ⟨hf, hfr⟩ := (step_port_char _ _ ParserState.port s hP.1).1 b2 u2 hstep
      exact ⟨fun hb => (hf hb).trans hP.2, hP.2 ▸ hfr⟩
    · intro s s' hP _ hstep
      obtain ⟨hu, hst⟩ := (step_port_char _ _ ParserState.port s hP.1).2 s' hstep
      exact ⟨hst, hu.trans hP.2⟩
  unfold runOverride
  cases hp : parse input none (some rec) (some ParserState.port) with
  | none =>
    have := parse_isSome input none (some rec) (some ParserState.port)
    rw [hp] at this
    simp at this
  | some r =>
    obtain ⟨b, u⟩ := r
    exact hR b u hp

/-- The host setter's parser call: whatever happens, only the host and
    port fields can change, and the host only to an actual value —
    but on failure the host may indeed have changed (the commit happens
    before the port digits are validated). -/
theorem runOverride_host_spec (input : List Char) (rec : UrlRecord) :
    hostSetterFrame rec (runOverride input rec ParserState.host).2 := by
  have hR : ∀ b u, parse input none (some rec) (some ParserState.host) = some (b, u) →
      hostSetterFrame rec u := by
    intro b u hp
    unfold parse at hp
    dsimp only at hp
    refine parseRun_result _
      (fun s => ((s.state = ParserState.host ∨ s.state = ParserState.fileHost) ∧
          s.url = rec) ∨
        (s.state = ParserState.port ∧ hostFrame rec s.url ∧ ∃ h, s.url.host = some h))
      (fun _ u => hostSetterFrame rec u)
      ?_ ?_ ?_ _ _ _ _ (Or.inl ⟨by simp [initState], rfl⟩) hp
    · intro s hP _
      rcases hP with ⟨_, hu⟩ | ⟨_, hfr, h, hh⟩
      · rw [hu]
        exact ⟨rfl, rfl, rfl, rfl, rfl, rfl, rfl, Or.inl ⟨rfl, rfl⟩⟩
      · obtain ⟨f1, f2, f3, _, f5, f6, f7, f8, _⟩ := hfr
        exact ⟨f1, f2, f3, f5, f6, f7, f8, Or.inr ⟨h, hh⟩⟩
    · intro s b2 u2 hP _ hstep
      rcases hP with ⟨hst, hu⟩ | ⟨hst, hfr, h, hh⟩
      · obtain ⟨_, hfr2⟩ := (step_host_char _ _ s hst).1 b2 u2 hstep
        rw [hu] at hfr2
        obtain ⟨f1, f2, f3, f4, f5, f6, f7, f8, f9⟩ := hfr2
        rcases f9 with f9 | ⟨h, hh⟩
        · exact ⟨f1, f2, f3, f5, f6, f7, f8, Or.inl ⟨f9, f4⟩⟩
        · exact ⟨f1, f2, f3, f5, f6, f7, f8, Or.inr ⟨h, hh⟩⟩
      · obtain ⟨_, hfr2⟩ := (step_port_char _ _ ParserState.host s hst).1 b2 u2 hstep
        obtain ⟨f1, f2, f3, f4, f5, f6, f7, f8⟩ := hfr2
        obtain ⟨g1, g2, g3, _, g5, g6, g7, g8, _⟩ := hfr
        exact ⟨f1.trans g1, f2.trans g2, f3.trans g3, f5.trans g5, f6.trans g6,
          f7.trans g7, f8.trans g8, Or.inr ⟨h, f4.trans hh⟩⟩
    · intro s s' hP _ hstep
      rcases hP with ⟨hst, hu⟩ | ⟨hst, hfr, h, hh⟩
      · rcases (step_host_char _ _ s hst).2 s' hstep with ⟨hu2, hst2⟩ | ⟨hst2, hfr2, h, hh⟩
        · exact Or.inl ⟨hst2, hu2.trans hu⟩
        · exact Or.inr ⟨hst2, hu ▸ hfr2, h, hh⟩
      · obtain ⟨hu2, hst2⟩ := (step_port_char _ _ ParserState.host s hst).2 s' hstep
        refine Or.inr ⟨hst2, ?_, h, ?_⟩
        · rw [hu2]; exact hfr
        · rw [hu2]; exact hh
  unfold runOverride
  cases hp : parse input none (some rec) (some ParserState.host) with
  | none =>
    have := parse_isSome input none (some rec) (some ParserState.host)
    rw [hp] at this
    simp at this
  | some r =>
    obtain ⟨b, u⟩ := r
    exact hR b u hp

/-- The pathname setter's parser call: it always succeeds, and only the
    path changes (plus the Windows drive letter host rewrite). -/
theorem runOverride_pathStart_spec (input : List Char) (rec : UrlRecord) :
    (runOverride input rec ParserState.pathStart).1 = true ∧
    pathFrame rec (runOverride input rec ParserState.pathStart).2 := by
  have hR : ∀ b u, parse input none (some rec) (some ParserState.pathStart) = some (b, u) →
      (b = true ∧ pathFrame rec u) := by
    intro b u hp
    unfold parse at hp
    dsimp only at hp
    refine parseRun_result _
      (fun s => (s.state = ParserState.pathStart ∨ s.state = ParserState.path) ∧
        pathFrame rec s.url)
      (fun b u => b = true ∧ pathFrame rec u)
      ?_ ?_ ?_ _ _ _ _
      ⟨by simp [initState], ⟨rfl, rfl, rfl, rfl, rfl, rfl, rfl, Or.inl rfl⟩⟩ hp
    · intro s hP _
      exact ⟨rfl, hP.2⟩
    · intro s b2 u2 hP _ hstep
      exact ((step_pathStart_char (stripTabNewline input) none s hP.1).1 b2 u2 hstep).elim
    · intro s s' hP _ hstep
      obtain ⟨hst, hfr⟩ := (step_pathStart_char _ _ s hP.1).2 s' hstep
      exact ⟨hst, pathFrame_trans hP.2 hfr⟩
  unfold runOverride
  cases hp : parse input none (some rec) (some ParserState.pathStart) with
  | none =>
    have := parse_isSome input none (some rec) (some ParserState.pathStart)
    rw [hp] at this
    simp at this
  | some r =>
    obtain ⟨b, u⟩ := r
    exact hR b u hp

/-- The search setter's parser call: it always succeeds, and only the
    query changes. -/
theorem runOverride_query_spec (input : List Char) (rec : UrlRecord) :
    (runOverride input rec ParserState.query).1 = true ∧
    queryFrame rec (runOverride input rec ParserState.query).2 := by
  have hR : ∀ b u, parse input none (some rec) (some ParserState.query) = some (b, u) →
      (b = true ∧ queryFrame rec u) := by
    intro b u hp
    unfold parse at hp
    dsimp only at hp
    refine parseRun_result _
      (fun s => s.state = ParserState.query ∧ queryFrame rec s.url)
      (fun b u => b = true ∧ queryFrame rec u)
      ?_ ?_ ?_ _ _ _ _
      ⟨by simp [initState], ⟨rfl, rfl, rfl, rfl, rfl, rfl, rfl, rfl⟩⟩ hp
    · intro s hP _
      exact ⟨rfl, hP.2⟩
    · intro s b2 u2 hP _ hstep
      exact ((step_query_char (stripTabNewline input) none s hP.1).1 b2 u2 hstep).elim
    · intro s s' hP _ hstep
      obtain ⟨hst, hfr⟩ := (step_query_char _ _ s hP.1).2 s' hstep
      exact ⟨hst, queryFrame_trans hP.2 hfr⟩
  unfold runOverride
  cases hp : parse input none (some rec) (some ParserState.query) with
  | none =>
    have := parse_isSome input none (some rec) (some ParserState.query)
    rw [hp] at this
    simp at this
  | some r =>
    obtain ⟨b, u⟩ := r
    exact hR b u hp

/-- The hash setter's parser call: it always succeeds, and only the
    fragment changes. -/
theorem runOverride_fragment_spec (input : List Char) (rec : UrlRecord) :
    (runOverride input rec ParserState.fragment).1 = true ∧
    fragmentFrame rec (runOverride input rec ParserState.fragment).2 := by
  have hR : ∀ b u, parse input none (some rec) (some ParserState.fragment) = some (b, u) →
      (b = true ∧ fragmentFrame rec u) := by
    intro b u hp
    unfold parse at hp
    dsimp only at hp
    refine parseRun_result _
      (fun s => s.state = ParserState.fragment ∧ fragmentFrame rec s.url)
      (fun b u => b = true ∧ fragmentFrame rec u)
      ?_ ?_ ?_ _ _ _ _
      ⟨by simp [initState], ⟨rfl, rfl, rfl, rfl, rfl, rfl, rfl, rfl⟩⟩ hp
    · intro s hP _
      exact ⟨rfl, hP.2⟩
    · intro s b2 u2 hP _ hstep
      exact ((step_fragment_char (stripTabNewline input) none s hP.1).1 b2 u2 hstep).elim
    · intro s s' hP _ hstep
      obtain ⟨hst, hfr⟩ := (step_fragment_char _ _ s hP.1).2 s' hstep
      exact ⟨hst, fragmentFrame_trans hP.2 hfr⟩
  unfold runOverride
  cases hp : parse input none (some rec) (some ParserState.fragment) with
  | none =>
    have := parse_isSome input none (some rec) (some ParserState.fragment)
    rw [hp] at this
    simp at this
  | some r =>
    obtain ⟨b, u⟩ := r
    exact hR b u hp

/-! ## Claim C3: setters do not commit partial mutations on failure -/

/-- Claim C3 is false as stated: the host setter's parser call on the
    input x:70000 against the record of http://h/ fails (the port
    70000 exceeds 65535) yet leaves the record mutated — the host x
    was committed before the port digits were validated. -/
theorem claim_C3_counterexample :
    (runOverride ("x:70000".data) sampleHttpRecord ParserState.host).1 = false ∧
    (runOverride ("x:70000".data) sampleHttpRecord ParserState.host).2 ≠
      sampleHttpRecord := by
  decide

/-- Claim C3, corrected: for the protocol (scheme start), hostname and
    port overrides a failing parser call leaves the record exactly
    unchanged; the path start, query and fragment overrides never fail;
    but the host override only guarantees that all fields other than
    host and port are untouched and that the host is never cleared —
    on failure the host may have been committed (see the
    counterexample), so the original all-setters no-partial-mutation
    claim fails exactly there. -/
theorem claim_C3_no_partial_mutation_amended (input : List Char) (rec : UrlRecord) :
    ((runOverride input rec ParserState.schemeStart).1 = false →
      (runOverride input rec ParserState.schemeStart).2 = rec) ∧
    ((runOverride input rec ParserState.hostname).1 = false →
      (runOverride input rec ParserState.hostname).2 = rec) ∧
    ((runOverride input rec ParserState.port).1 = false →
      (runOverride input rec ParserState.port).2 = rec) ∧
    (runOverride input rec ParserState.pathStart).1 = true ∧
    (runOverride input rec ParserState.query).1 = true ∧
    (runOverride input rec ParserState.fragment).1 = true ∧
    hostSetterFrame rec (runOverride input rec ParserState.host).2 :=
  ⟨(runOverride_schemeStart_spec input rec).1,
   (runOverride_hostname_spec input rec).1,
   (runOverride_port_spec input rec).1,
   (runOverride_pathStart_spec input rec).1,
   (runOverride_query_spec input rec).1,
   (runOverride_fragment_spec input rec).1,
   runOverride_host_spec input rec⟩

/-- A concrete instance of the corrected claim C3: the port override on
    99999 against the record of http://h/ fails and leaves the record
    unchanged. -/
theorem claim_C3_no_partial_mutation_amended_witness :
    (runOverride ("99999".data) sampleHttpRecord ParserState.port).1 = false ∧
    (runOverride ("99999".data) sampleHttpRecord ParserState.port).2 =
      sampleHttpRecord :=
  ⟨by decide,
   (claim_C3_no_partial_mutation_amended ("99999".data) sampleHttpRecord).2.2.1
     (by decide)⟩

/-! ## Claim C8: the host-null invariant -/

/-- The host-null invariant of claim C8: a null host forces a null port
    and empty credentials. -/
def HostNullInv (u : UrlRecord) : Prop :=
  u.host = none → u.port = none ∧ u.username = [] ∧ u.password = []

/-- The authority components are still at their fresh-record values. -/
def cleanAuthority (u : UrlRecord) : Prop :=
  u.username = [] ∧ u.password = [] ∧ u.host = none ∧ u.port = none

/-- The per-state invariant of a fresh (no-override) parse.  Before the
    authority state the authority components are untouched; in the
    authority and host states credentials may already be committed but
    host and port are still null and the cursor is inside the input, so
    the loop cannot exit there; the port state is entered only after a
    host commit; the file states never touch credentials or port; the
    hostname state is unreachable without an override; the remaining
    states preserve the host-null invariant outright.  In the relative
    state the record is either untouched or wholly copied from the base
    at end of input. -/
def parseInv (L : Int) (s : MState) : Prop :=
  match s.state with
  | ParserState.schemeStart | ParserState.scheme | ParserState.noScheme
  | ParserState.specialRelativeOrAuthority | ParserState.pathOrAuthority
  | ParserState.relativeSlash | ParserState.specialAuthoritySlashes
  | ParserState.specialAuthorityIgnoreSlashes => cleanAuthority s.url
  | ParserState.relative => cleanAuthority s.url ∨ (HostNullInv s.url ∧ L < s.cursor)
  | ParserState.authority | ParserState.host =>
      s.url.host = none ∧ s.url.port = none ∧ 0 ≤ s.cursor ∧ s.cursor ≤ L
  | ParserState.hostname => False
  | ParserState.port => ∃ h, s.url.host = some h
  | ParserState.file | ParserState.fileSlash | ParserState.fileHost =>
      s.url.username = [] ∧ s.url.password = [] ∧ s.url.port = none
  | _ => HostNullInv s.url

/-- The authority commit on seeing `@` only writes username and
    password. -/
theorem authorityCommit_frame (l : List Char) (b : Bool) (u : UrlRecord) :
    (authorityCommit l b u).2.host = u.host ∧ (authorityCommit l b u).2.port = u.port := by
  induction l generalizing b u with
  | nil => exact ⟨rfl, rfl⟩
  | cons cp rest ih =>
    unfold authorityCommit
    dsimp only
    split
    · exact ih true u
    · split
      · exact ih b _
      · exact ih b _

/-- An undefined position means the index is outside the string. -/
theorem getAt_none_bounds {l : List Char} {i : Int} (h : getAt l i = none) :
    i < 0 ∨ (l.length : Int) ≤ i := by
  unfold getAt at h
  split at h
  · right
    rename_i h0
    by_contra hn
    push_neg at hn
    rw [List.getElem?_eq_getElem (by omega)] at h
    exact Option.noConfusion h
  · left; omega

/-- When the loop condition fails, the per-state invariant gives the
    host-null invariant of the record returned. -/
theorem parseInv_exit {inp : List Char} {base : Option UrlRecord} {ov : Option ParserState}
    {s : MState} (hK : parseInv (inp.length : Int) s)
    (hcond : loopCond ⟨inp, base, ov⟩ s = false) : HostNullInv s.url := by
  have hcur : s.cursor < 0 ∨ (inp.length : Int) < s.cursor := by
    unfold loopCond at hcond
    rw [Bool.or_eq_false_iff] at hcond
    obtain ⟨h0, h1⟩ := hcond
    have h0' : s.cursor ≠ 0 := by simpa using h0
    have h1' : getAt inp (s.cursor - 1) = none := by
      rw [← Option.not_isSome_iff_eq_none]
      simp [h1]
    rcases getAt_none_bounds h1' with h | h
    · left; omega
    · right; omega
  obtain ⟨url, state, buffer, sa, sb, pt, cursor⟩ := s
  simp only at hcur
  unfold parseInv at hK
  cases state
  all_goals simp only at hK
  case mk.relative =>
    rcases hK with ⟨h1, h2, _, h4⟩ | ⟨hi, _⟩
    · exact fun _ => ⟨h4, h1, h2⟩
    · exact hi
  case mk.authority | mk.host =>
    all_goals exfalso
    all_goals omega
  case mk.port =>
    obtain ⟨h, hh⟩ := hK
    intro hn
    rw [hn] at hh
    exact Option.noConfusion hh
  case mk.schemeStart | mk.scheme | mk.noScheme | mk.specialRelativeOrAuthority
      | mk.pathOrAuthority | mk.relativeSlash | mk.specialAuthoritySlashes
      | mk.specialAuthorityIgnoreSlashes =>
    all_goals exact fun _ => ⟨hK.2.2.2, hK.1, hK.2.1⟩
  case mk.file | mk.fileSlash | mk.fileHost =>
    all_goals exact fun _ => ⟨hK.2.2, hK.1, hK.2.1⟩
  all_goals exact hK

set_option maxHeartbeats 3200000 in
/-- Without a state override every `return` of the state machine is a
    failure return: the success returns are all guarded by an
    override. -/
theorem step_parseInv_ret (inp : List Char) (base : Option UrlRecord)
    (s : MState) (b : Bool) (u : UrlRecord)
    (hstep : step ⟨inp, base, none⟩ s = StepRes.ret b u) : b = false := by
  obtain ⟨url, state, buffer, sa, sb, pt, cursor⟩ := s
  cases state
  all_goals simp only [step, Option.isSome_none, Option.isNone_none, Bool.false_and,
    Bool.true_and, Bool.false_or, Bool.or_false, Bool.false_eq_true, Bool.true_eq_false,
    reduceCtorEq, eq_self_iff_true, if_false, if_true] at hstep
  all_goals repeat' split at hstep
  all_goals first
    | exact StepRes.noConfusion hstep
    | (injection hstep with h1 h2; exact h1.symm)
    | simp_all

set_option maxHeartbeats 3200000 in
/-- One continuing step of a fresh parse preserves the per-state
    invariant, provided every base record satisfies the host-null
    invariant. -/
theorem step_parseInv_next (inp : List Char) (base : Option UrlRecord)
    (hbase : ∀ brec, base = some brec → HostNullInv brec)
    (s : MState) (hK : parseInv (inp.length : Int) s) (hinv : loopInv s)
    (hcond : loopCond ⟨inp, base, none⟩ s = true)
    (s' : MState) (hstep : step ⟨inp, base, none⟩ s = StepRes.next s') :
    parseInv (inp.length : Int) s' := by
  obtain ⟨hc0, hcL⟩ := loopCond_bounds hcond
  have hbD : HostNullInv (base.getD {}) := by
    cases base with
    | none => exact fun _ => ⟨rfl, rfl, rfl⟩
    | some brec => exact hbase brec rfl
  obtain ⟨url, state, buffer, sa, sb, pt, cursor⟩ := s
  obtain ⟨hbf, hauth⟩ := hinv
  simp only at hbf hauth hc0 hcL
  unfold parseInv at hK
  cases state
  all_goals simp only at hK
  case intro.mk.intro.relative =>
    have hgood : cleanAuthority url := by
      rcases hK with h | ⟨_, hgt⟩
      · exact h
      · exfalso; omega
    simp only [step, Option.isSome_none, Option.isNone_none, Bool.false_and,
      Bool.true_and, Bool.false_or, Bool.or_false, Bool.false_eq_true, Bool.true_eq_false,
      reduceCtorEq, eq_self_iff_true, if_false, if_true] at hstep
    repeat' split at hstep
    all_goals first
      | exact StepRes.noConfusion hstep
      | (cases hstep
         simp only [parseInv]
         first
           | exact hgood
           | exact fun hn => hbD hn
           | (refine Or.inr ⟨fun hn => hbD hn, ?_⟩
              have hb := getAt_none_bounds (show getAt inp cursor = none from by assumption)
              omega))
  case intro.mk.intro.authority =>
    have hlen : (buffer.length : Int) ≤ cursor := hauth rfl
    obtain ⟨hh, hp, _, _⟩ := hK
    simp only [step, Option.isSome_none, Option.isNone_none, Bool.false_and,
      Bool.true_and, Bool.false_or, Bool.or_false, Bool.false_eq_true, Bool.true_eq_false,
      reduceCtorEq, eq_self_iff_true, if_false, if_true] at hstep
    repeat' split at hstep
    all_goals first
      | exact StepRes.noConfusion hstep
      | (cases hstep
         simp only [parseInv]
         refine ⟨?_, ?_, ?_, ?_⟩
         · first
           | exact hh
           | exact (authorityCommit_frame _ _ _).1.trans hh
         · first
           | exact hp
           | exact (authorityCommit_frame _ _ _).2.trans hp
         · first
           | omega
           | (have hb := @getAt_some_bounds inp cursor _ (by assumption); omega)
         · first
           | omega
           | (have hb := @getAt_some_bounds inp cursor _ (by assumption); omega))
  case intro.mk.intro.host =>
    obtain ⟨hh, hp, _, _⟩ := hK
    simp only [step, Option.isSome_none, Option.isNone_none, Bool.false_and,
      Bool.true_and, Bool.false_or, Bool.or_false, Bool.false_eq_true, Bool.true_eq_false,
      reduceCtorEq, eq_self_iff_true, if_false, if_true] at hstep
    repeat' split at hstep
    all_goals first
      | exact StepRes.noConfusion hstep
      | (cases hstep
         simp only [parseInv]
         first
           | exact ⟨_, rfl⟩
           | exact fun hn => Option.noConfusion hn
           | (refine ⟨hh, hp, ?_, ?_⟩
              all_goals first
                | omega
                | (have hb := @getAt_some_bounds inp cursor _ (by assumption); omega)))
  case intro.mk.intro.port =>
    obtain ⟨h, hh⟩ := hK
    simp only [step, Option.isSome_none, Option.isNone_none, Bool.false_and,
      Bool.true_and, Bool.false_or, Bool.or_false, Bool.false_eq_true, Bool.true_eq_false,
      reduceCtorEq, eq_self_iff_true, if_false, if_true] at hstep
    repeat' split at hstep
    all_goals first
      | exact StepRes.noConfusion hstep
      | (cases hstep
         simp only [parseInv]
         first
           | exact ⟨h, hh⟩
           | exact fun hn => Option.noConfusion (hh.symm.trans hn))
  case intro.mk.intro.file =>
    obtain ⟨hu, hp, hpo⟩ := hK
    simp only [step, Option.isSome_none, Option.isNone_none, Bool.false_and,
      Bool.true_and, Bool.false_or, Bool.or_false, Bool.false_eq_true, Bool.true_eq_false,
      reduceCtorEq, eq_self_iff_true, if_false, if_true] at hstep
    repeat' split at hstep
    all_goals first
      | exact StepRes.noConfusion hstep
      | (cases hstep
         simp only [parseInv]
         first
           | exact ⟨hu, hp, hpo⟩
           | exact fun _ => ⟨hpo, hu, hp⟩
           | (intro hn
              unfold shortenPath
              repeat' split
              all_goals exact ⟨hpo, hu, hp⟩))
  case intro.mk.intro.fileSlash =>
    obtain ⟨hu, hp, hpo⟩ := hK
    simp only [step, Option.isSome_none, Option.isNone_none, Bool.false_and,
      Bool.true_and, Bool.false_or, Bool.or_false, Bool.false_eq_true, Bool.true_eq_false,
      reduceCtorEq, eq_self_iff_true, if_false, if_true] at hstep
    repeat' split at hstep
    all_goals first
      | exact StepRes.noConfusion hstep
      | (cases hstep
         simp only [parseInv]
         first
           | exact ⟨hu, hp, hpo⟩
           | exact fun _ => ⟨hpo, hu, hp⟩)
  case intro.mk.intro.fileHost =>
    obtain ⟨hu, hp, hpo⟩ := hK
    simp only [step, Option.isSome_none, Option.isNone_none, Bool.false_and,
      Bool.true_and, Bool.false_or, Bool.or_false, Bool.false_eq_true, Bool.true_eq_false,
      reduceCtorEq, eq_self_iff_true, if_false, if_true] at hstep
    repeat' split at hstep
    all_goals first
      | exact StepRes.noConfusion hstep
      | (cases hstep
         simp only [parseInv]
         first
           | exact ⟨hu, hp, hpo⟩
           | exact fun _ => ⟨hpo, hu, hp⟩
           | exact fun hn => Option.noConfusion hn)
  case intro.mk.intro.path =>
    simp only [step, Option.isSome_none, Option.isNone_none, Bool.false_and,
      Bool.true_and, Bool.false_or, Bool.or_false, Bool.false_eq_true, Bool.true_eq_false,
      reduceCtorEq, eq_self_iff_true, if_false, if_true] at hstep
    repeat' split at hstep
    all_goals first
      | exact StepRes.noConfusion hstep
      | (cases hstep
         simp only [parseInv]
         first
           | exact hK
           | (intro hn
              obtain ⟨f1, f2, f3, f4, f5, f6, f7, f8⟩ :=
                pathTerminatorUrl_frame url buffer _
              rcases f8 with f8 | f8
              · obtain ⟨hpo, hu, hpw⟩ := hK (f8.symm.trans hn)
                exact ⟨f4.trans hpo, f2.trans hu, f3.trans hpw⟩
              · exact Option.noConfusion (f8.symm.trans hn)))
  all_goals simp only [step, Option.isSome_none, Option.isNone_none, Bool.false_and,
    Bool.true_and, Bool.false_or, Bool.or_false, Bool.false_eq_true, Bool.true_eq_false,
    reduceCtorEq, eq_self_iff_true, if_false, if_true] at hstep
  all_goals repeat' split at hstep
  all_goals first
    | exact StepRes.noConfusion hstep
    | (cases hstep
       simp only [parseInv]
       first
         | exact hK
         | exact Or.inl hK
         | exact fun hn => hbD hn
         | exact fun _ => ⟨hK.2.2.2, hK.1, hK.2.1⟩
         | exact ⟨hK.1, hK.2.1, hK.2.2.2⟩
         | (refine ⟨hK.2.2.1, hK.2.2.2, ?_, ?_⟩
            all_goals first
              | omega
              | (have hb := @getAt_some_bounds inp cursor _ (by assumption)
                 omega)))

/-- A successful fresh parse yields a record satisfying the host-null
    invariant, provided the base does. -/
theorem parseFresh_hostNullInv (input : List Char) (base : Option UrlRecord)
    (hbase : ∀ brec, base = some brec → HostNullInv brec)
    (u : UrlRecord) (hp : parseFresh input base = some (true, u)) :
    HostNullInv u := by
  unfold parseFresh parse at hp
  dsimp only at hp
  refine parseRun_result _
    (fun s => parseInv ((stripTabNewline (stripControlAndSpace input)).length : Int) s ∧
      loopInv s)
    (fun b u => b = true → HostNullInv u)
    ?_ ?_ ?_ _ _ _ _ ⟨?_, ?_⟩ hp rfl
  · intro s hP hc _
    exact parseInv_exit hP.1 hc
  · intro s b2 u2 hP _ hstep hb
    rw [hb] at hstep
    exact absurd (step_parseInv_ret _ _ _ _ _ hstep) (by simp)
  · intro s s' hP hc hstep
    exact ⟨step_parseInv_next _ _ hbase s hP.1 hP.2 hc s' hstep,
      (step_decrease _ s hP.2 hc s' hstep).1⟩
  · exact ⟨rfl, rfl, rfl, rfl⟩
  · exact loopInv_init {} none

theorem hostFrame_inv {a b : UrlRecord} (hf : hostFrame a b) (h : HostNullInv a) :
    HostNullInv b := by
  obtain ⟨f1, f2, f3, f4, f5, f6, f7, f8, f9⟩ := hf
  intro hn
  rcases f9 with f9 | ⟨hh, fh⟩
  · rw [f9] at hn
    obtain ⟨hpo, hu, hp⟩ := h hn
    exact ⟨f4.trans hpo, f2.trans hu, f3.trans hp⟩
  · rw [fh] at hn
    exact Option.noConfusion hn

theorem hostSetterFrame_inv {a b : UrlRecord} (hf : hostSetterFrame a b)
    (h : HostNullInv a) : HostNullInv b := by
  obtain ⟨f1, f2, f3, f4, f5, f6, f7, f8⟩ := hf
  intro hn
  rcases f8 with ⟨fh, fp⟩ | ⟨hh, fh⟩
  · rw [fh] at hn
    obtain ⟨hpo, hu, hp⟩ := h hn
    exact ⟨fp.trans hpo, f2.trans hu, f3.trans hp⟩
  · rw [fh] at hn
    exact Option.noConfusion hn

theorem schemeFrame_inv {a b : UrlRecord} (hf : schemeFrame a b) (h : HostNullInv a) :
    HostNullInv b := by
  obtain ⟨f1, f2, f3, f4, f5, f6, f7, f8⟩ := hf
  intro hn
  rw [f1] at hn
  obtain ⟨hpo, hu, hp⟩ := h hn
  refine ⟨?_, f2.trans hu, f3.trans hp⟩
  rcases f8 with f8 | f8
  · exact f8.trans hpo
  · exact f8

theorem pathFrame_inv {a b : UrlRecord} (hf : pathFrame a b) (h : HostNullInv a) :
    HostNullInv b := by
  obtain ⟨f1, f2, f3, f4, f5, f6, f7, f8⟩ := hf
  intro hn
  rcases f8 with f8 | f8
  · rw [f8] at hn
    obtain ⟨hpo, hu, hp⟩ := h hn
    exact ⟨f4.trans hpo, f2.trans hu, f3.trans hp⟩
  · rw [f8] at hn
    exact Option.noConfusion hn

theorem queryFrame_inv {a b : UrlRecord} (hf : queryFrame a b) (h : HostNullInv a) :
    HostNullInv b := by
  obtain ⟨f1, f2, f3, f4, f5, f6, f7, f8⟩ := hf
  intro hn
  rw [f4] at hn
  obtain ⟨hpo, hu, hp⟩ := h hn
  exact ⟨f5.trans hpo, f2.trans hu, f3.trans hp⟩

theorem fragmentFrame_inv {a b : UrlRecord} (hf : fragmentFrame a b) (h : HostNullInv a) :
    HostNullInv b := by
  obtain ⟨f1, f2, f3, f4, f5, f6, f7, f8⟩ := hf
  intro hn
  rw [f4] at hn
  obtain ⟨hpo, hu, hp⟩ := h hn
  exact ⟨f5.trans hpo, f2.trans hu, f3.trans hp⟩

/-- Each attribute setter preserves the host-null invariant. -/
theorem protocolSet_inv (rec : UrlRecord) (v : List Char) (h : HostNullInv rec) :
    HostNullInv (protocolSet rec v) :=
  schemeFrame_inv (runOverride_schemeStart_spec (v ++ [':']) rec).2 h

theorem usernameSet_inv (rec : UrlRecord) (v : List Char) (h : HostNullInv rec) :
    HostNullInv (usernameSet rec v) := by
  unfold usernameSet
  split
  · exact h
  · intro hn
    exfalso
    have hc : cannotHaveUsernamePasswordPort rec = true := by
      unfold cannotHaveUsernamePasswordPort
      simp [show rec.host = none from hn]
    exact absurd hc (by assumption)

theorem passwordSet_inv (rec : UrlRecord) (v : List Char) (h : HostNullInv rec) :
    HostNullInv (passwordSet rec v) := by
  unfold passwordSet
  split
  · exact h
  · intro hn
    exfalso
    have hc : cannotHaveUsernamePasswordPort rec = true := by
      unfold cannotHaveUsernamePasswordPort
      simp [show rec.host = none from hn]
    exact absurd hc (by assumption)

theorem hostSet_inv (rec : UrlRecord) (v : List Char) (h : HostNullInv rec) :
    HostNullInv (hostSet rec v) := by
  unfold hostSet
  split
  · exact h
  · exact hostSetterFrame_inv (runOverride_host_spec v rec) h

theorem hostnameSet_inv (rec : UrlRecord) (v : List Char) (h : HostNullInv rec) :
    HostNullInv (hostnameSet rec v) := by
  unfold hostnameSet
  split
  · exact h
  · exact hostFrame_inv (runOverride_hostname_spec v rec).2 h

theorem portSet_inv (rec : UrlRecord) (v : List Char) (h : HostNullInv rec) :
    HostNullInv (portSet rec v) := by
  unfold portSet
  split
  · exact h
  · split
    · intro hn
      obtain ⟨_, hu, hp⟩ := h hn
      exact ⟨rfl, hu, hp⟩
    · obtain ⟨f1, f2, f3, f4, f5, f6, f7, f8⟩ := (runOverride_port_spec v rec).2
      intro hn
      exfalso
      have hc : cannotHaveUsernamePasswordPort rec = true := by
        unfold cannotHaveUsernamePasswordPort
        simp [show rec.host = none from f4.symm.trans hn]
      exact absurd hc (by assumption)

theorem pathnameSet_inv (rec : UrlRecord) (v : List Char) (h : HostNullInv rec) :
    HostNullInv (pathnameSet rec v) := by
  unfold pathnameSet
  split
  · exact h
  · exact pathFrame_inv (runOverride_pathStart_spec v { rec with path := [] }).2
      (fun hn => h hn)

theorem hashSet_inv (rec : UrlRecord) (v : List Char) (h : HostNullInv rec) :
    HostNullInv (hashSet rec v) := by
  unfold hashSet
  split
  · intro hn
    obtain ⟨hpo, hu, hp⟩ := h hn
    exact ⟨hpo, hu, hp⟩
  · dsimp only
    exact fragmentFrame_inv
      (runOverride_fragment_spec _ { rec with fragment := some [] }).2
      (fun hn => h hn)

theorem searchSet_inv (u : UrlObject) (v : List Char) (h : HostNullInv u.url) :
    HostNullInv (searchSet u v).url := by
  unfold searchSet
  split
  · intro hn
    obtain ⟨hpo, hu, hp⟩ := h hn
    exact ⟨hpo, hu, hp⟩
  · dsimp only
    exact queryFrame_inv
      (runOverride_query_spec _ { u.url with query := some [] }).2
      (fun hn => h hn)

theorem applyParamsOp_inv (u : UrlObject) (op : ParamsOp) (h : HostNullInv u.url) :
    HostNullInv (applyParamsOp u op).url := by
  cases op
  all_goals unfold applyParamsOp appendParams deleteParams setParams sortParams updateParams
  all_goals exact fun hn => h hn

/-- The URL records reachable through the public interface: a fresh
    parse (with no base, or with a base that is itself reachable), any
    attribute setter, and any mutation through the bound query
    container. -/
inductive Reachable : UrlRecord → Prop where
  | fresh (input : List Char) (u : UrlRecord) :
      parseFresh input none = some (true, u) → Reachable u
  | freshWithBase (input : List Char) (b u : UrlRecord) :
      Reachable b → parseFresh input (some b) = some (true, u) → Reachable u
  | setProtocol (rec : UrlRecord) (v : List Char) :
      Reachable rec → Reachable (protocolSet rec v)
  | setUsername (rec : UrlRecord) (v : List Char) :
      Reachable rec → Reachable (usernameSet rec v)
  | setPassword (rec : UrlRecord) (v : List Char) :
      Reachable rec → Reachable (passwordSet rec v)
  | setHost (rec : UrlRecord) (v : List Char) :
      Reachable rec → Reachable (hostSet rec v)
  | setHostname (rec : UrlRecord) (v : List Char) :
      Reachable rec → Reachable (hostnameSet rec v)
  | setPort (rec : UrlRecord) (v : List Char) :
      Reachable rec → Reachable (portSet rec v)
  | setPathname (rec : UrlRecord) (v : List Char) :
      Reachable rec → Reachable (pathnameSet rec v)
  | setHash (rec : UrlRecord) (v : List Char) :
      Reachable rec → Reachable (hashSet rec v)
  | setSearch (u : UrlObject) (v : List Char) :
      Reachable u.url → Reachable (searchSet u v).url
  | paramsMutation (u : UrlObject) (op : ParamsOp) :
      Reachable u.url → Reachable (applyParamsOp u op).url

/-- Claim C8: in every URL record reachable through the public
    interface (a fresh parse with or without a base, any attribute
    setter, any mutation through the bound query container), a null
    host implies a null port and empty username and password. -/
theorem claim_C8_host_null_invariant (u : UrlRecord) (h : Reachable u) :
    u.host = none → u.port = none ∧ u.username = [] ∧ u.password = [] := by
  induction h with
  | fresh input u hp =>
    exact parseFresh_hostNullInv input none (fun brec hb => Option.noConfusion hb) u hp
  | freshWithBase input b u hb hp ihb =>
    exact parseFresh_hostNullInv input (some b)
      (fun brec hbe => by injection hbe with he; exact he ▸ ihb) u hp
  | setProtocol rec v hr ih => exact protocolSet_inv rec v ih
  | setUsername rec v hr ih => exact usernameSet_inv rec v ih
  | setPassword rec v hr ih => exact passwordSet_inv rec v ih
  | setHost rec v hr ih => exact hostSet_inv rec v ih
  | setHostname rec v hr ih => exact hostnameSet_inv rec v ih
  | setPort rec v hr ih => exact portSet_inv rec v ih
  | setPathname rec v hr ih => exact pathnameSet_inv rec v ih
  | setHash rec v hr ih => exact hashSet_inv rec v ih
  | setSearch uo v hr ih => exact searchSet_inv uo v ih
  | paramsMutation uo op hr ih => exact applyParamsOp_inv uo op ih

/-- A concrete instance of claim C8: the record parsed from a:/b has a
    null host, and indeed a null port and empty credentials. -/
theorem claim_C8_host_null_invariant_witness :
    ({ scheme := "a".data, path := ["b".data] } : UrlRecord).port = none ∧
    ({ scheme := "a".data, path := ["b".data] } : UrlRecord).username = [] ∧
    ({ scheme := "a".data, path := ["b".data] } : UrlRecord).password = [] :=
  claim_C8_host_null_invariant _ (Reachable.fresh ("a:/b".data) _ (by decide)) (by decide)


/-! ## Claim C1: parse-serialize round trip -/

/-- C1 (code bug): the round trip fails on the record parsed from
    `http://h/`.  Because `serializeHost` is a stub returning the host
    object, the serializer emits `http://[object Object]/`; re-parsing
    that string yields a record whose host is the IPv6 host
    `object Object` (the bracketed substring), not the original domain
    host `h`, so `parse(serializeUrl(U))` is not field-equal to `U`. -/
theorem claim_C1_round_trip_fails :
    parseFresh "http://h/".data = some (true, sampleHttpRecord) ∧
    serializeUrl sampleHttpRecord = "http://[object Object]/".data ∧
    parseFresh (serializeUrl sampleHttpRecord) = some (true, sampleReparsedRecord) ∧
    sampleReparsedRecord.host ≠ sampleHttpRecord.host ∧
    sampleReparsedRecord ≠ sampleHttpRecord := by
  refine ⟨by decide, by decide, by decide, by decide, by decide⟩

end UrlPolyfill
